import Mathlib

/-!
Verification of the Word/PDF form-filling pipeline of this repository:
the compact element indexer (src/handlers/word_indexer.py), the snippet
locator (src/xml_snippet_matching.py, src/xml_utils.py), the mutation
engine (src/handlers/word_writer.py), the post-write verifier
(src/handlers/word_verifier.py) and the PDF writer
(src/handlers/pdf_writer.py).

The OOXML tree manipulated by lxml is embedded as a mutual inductive
tree.  Tags and attribute keys are kept in prefixed form ("w:tc",
"w:fill"): the source stores them in Clark notation with the fixed
NAMESPACES table of src/xml_snippet_matching.py, a bijective renaming.
String scanning (the two placeholder regexes, the XPath safety regex)
is implemented character by character following the source patterns.
The lxml codec itself (bytes to tree, tree to bytes) is the external
format adapter; a snippet string is therefore embedded as its parse
outcome, see Snippet below.
-/

mutual
/-- Model of an lxml element: tag, attributes, direct text, children,
tail text.  Mirrors the data accessed by the source: elem.tag,
elem.attrib, elem.text, list(elem), elem.tail. -/
inductive Elem where
  | mk (tag : String) (attrs : List (String × String)) (text : Option String)
       (children : ElemList) (tail : Option String)
  deriving DecidableEq
inductive ElemList where
  | nil
  | cons (head : Elem) (tail : ElemList)
  deriving DecidableEq
end

def Elem.tag : Elem → String
  | .mk t _ _ _ _ => t

def Elem.attrs : Elem → List (String × String)
  | .mk _ a _ _ _ => a

def Elem.text : Elem → Option String
  | .mk _ _ x _ _ => x

def Elem.children : Elem → ElemList
  | .mk _ _ _ cs _ => cs

def Elem.tail : Elem → Option String
  | .mk _ _ _ _ tl => tl

def ElemList.app : ElemList → ElemList → ElemList
  | .nil, ys => ys
  | .cons x xs, ys => .cons x (xs.app ys)

def ElemList.length : ElemList → Nat
  | .nil => 0
  | .cons _ xs => 1 + xs.length

/-- Direct child at a 0-based index. -/
def ElemList.nth : ElemList → Nat → Option Elem
  | .nil, _ => none
  | .cons x _, 0 => some x
  | .cons _ xs, n + 1 => xs.nth n

/-- Replace the child at a 0-based index (identity when out of range). -/
def ElemList.setNth : ElemList → Nat → Elem → ElemList
  | .nil, _, _ => .nil
  | .cons _ xs, 0, e => .cons e xs
  | .cons x xs, n + 1, e => .cons x (xs.setNth n e)

def ElemList.memb (e : Elem) : ElemList → Bool
  | .nil => false
  | .cons x xs => x == e || xs.memb e

/-- Keep only the children whose tag is in keep (the preserve-tags
filter of _replace_content). -/
def ElemList.keepTags (keep : List String) : ElemList → ElemList
  | .nil => .nil
  | .cons x xs =>
      if keep.contains x.tag then .cons x (xs.keepTags keep)
      else xs.keepTags keep

/-- Whether some direct child has the given tag. -/
def ElemList.anyTag (t : String) : ElemList → Bool
  | .nil => false
  | .cons x xs => x.tag == t || xs.anyTag t

/-- Direct children with the given tag, paired with their 0-based child
index, in document order.  This is the candidate list of an XPath child
step and of findall(tag). -/
def ElemList.idxWithTag (t : String) : ElemList → Nat → List (Nat × Elem)
  | .nil, _ => []
  | .cons x xs, i =>
      if x.tag == t then (i, x) :: xs.idxWithTag t (i + 1)
      else xs.idxWithTag t (i + 1)

/-- Subelement at an index path (each entry a 0-based child index). -/
def Elem.getAt : Elem → List Nat → Option Elem
  | e, [] => some e
  | e, i :: p =>
      match e.children.nth i with
      | none => none
      | some c => c.getAt p

/-- Apply f to the subelement at an index path (identity when the path
does not resolve).  Models the in-place mutation of an lxml element
reached through a resolved reference. -/
def Elem.modifyAt : Elem → List Nat → (Elem → Elem) → Elem
  | e, [], f => f e
  | .mk t a x cs tl, i :: p, f =>
      match cs.nth i with
      | none => .mk t a x cs tl
      | some c => .mk t a x (cs.setNth i (c.modifyAt p f)) tl

/-- Characters stripped by Python str.strip with no argument. -/
def pySpace (c : Char) : Bool :=
  c == ' ' || c == '\t' || c == '\n' || c == '\r' || c == '\x0b' || c == '\x0c'

/-- Python str.strip on the character list. -/
def pyStripL (cs : List Char) : List Char :=
  ((cs.dropWhile pySpace).reverse.dropWhile pySpace).reverse

def pyStrip (s : String) : String :=
  String.mk (pyStripL s.toList)

/-- Truthiness of s.strip(): some non-whitespace character exists. -/
def pyStripTruthy (s : String) : Bool :=
  s.toList.any (fun c => !pySpace c)

def isPreOf : List Char → List Char → Bool
  | [], _ => true
  | _ :: _, [] => false
  | a :: as, b :: bs => a == b && isPreOf as bs

/-- Python substring containment: pat in hay. -/
def containsSub (hay pat : List Char) : Bool :=
  match hay with
  | [] => pat.isEmpty
  | _ :: t => isPreOf pat hay || containsSub t pat

def strContains (hay pat : String) : Bool :=
  containsSub hay.toList pat.toList

/-- ASCII lowercase of a string (str.lower; the source applies it to
shading fill values and, in the PDF writer, to checkbox values). -/
def pyLower (s : String) : String :=
  String.mk (s.toList.map Char.toLower)

/-- Scanner for the tail of the placeholder regex \x5bEnter[^\x5d]*\x5d:
consume characters up to the first closing bracket; return the
remainder after it, or none when no closing bracket follows. -/
def enterScan : List Char → Option (List Char)
  | [] => none
  | c :: rest => if c == ']' then some rest else enterScan rest

/-- Match the first placeholder alternative at the head of the list;
return the remainder after the matched span. -/
def matchEnterAt : List Char → Option (List Char)
  | '[' :: 'E' :: 'n' :: 't' :: 'e' :: 'r' :: rest => enterScan rest
  | _ => none

/-- Match the second placeholder alternative (three or more
underscores, greedy) at the head of the list. -/
def matchUnderAt (cs : List Char) : Option (List Char) :=
  let run := cs.takeWhile (fun c => c == '_')
  if run.length ≥ 3 then some (cs.drop run.length) else none

/-- re.search of the first alternative anywhere in the list. -/
def searchEnter : List Char → Bool
  | [] => false
  | c :: rest => (matchEnterAt (c :: rest)).isSome || searchEnter rest

/-- re.search of the underscore alternative anywhere in the list. -/
def searchUnder : List Char → Bool
  | [] => false
  | c :: rest => (matchUnderAt (c :: rest)).isSome || searchUnder rest

/-- PLACEHOLDER_RE.search of word_indexer.py (pattern
\x5bEnter[^\x5d]*\x5d|_\x7b3,\x7d): either alternative matches
somewhere in the text. -/
def placeholderSearch (s : String) : Bool :=
  searchEnter s.toList || searchUnder s.toList

/-- Fuelled worker for re.sub of the Enter pattern: replace every
non-overlapping match, scanning left to right.  Each step consumes at
least one character, so fuel = length suffices and the fuel branch is
never reached from subEnter. -/
def subEnterF (repl : List Char) : Nat → List Char → List Char
  | 0, cs => cs
  | _ + 1, [] => []
  | f + 1, c :: rest =>
      match matchEnterAt (c :: rest) with
      | some rem => repl ++ subEnterF repl f rem
      | none => c :: subEnterF repl f rest

def subEnter (repl : List Char) (cs : List Char) : List Char :=
  subEnterF repl cs.length cs

/-- Fuelled worker for re.sub of the underscore pattern. -/
def subUnderF (repl : List Char) : Nat → List Char → List Char
  | 0, cs => cs
  | _ + 1, [] => []
  | f + 1, c :: rest =>
      match matchUnderAt (c :: rest) with
      | some rem => repl ++ subUnderF repl f rem
      | none => c :: subUnderF repl f rest

def subUnder (repl : List Char) (cs : List Char) : List Char :=
  subUnderF repl cs.length cs

/-- Fuelled worker for Python str.replace(old, new) with nonempty old:
replace every non-overlapping occurrence left to right. -/
def replaceAllF (old new : List Char) : Nat → List Char → List Char
  | 0, cs => cs
  | _ + 1, [] => []
  | f + 1, c :: rest =>
      if isPreOf old (c :: rest) then
        new ++ replaceAllF old new f ((c :: rest).drop old.length)
      else
        c :: replaceAllF old new f rest

def pyReplaceAll (s old new : String) : String :=
  String.mk (replaceAllF old.toList new.toList s.toList.length s.toList)

/-- First-wins attribute lookup (lxml attributes have unique keys). -/
def lookupAttr : List (String × String) → String → Option String
  | [], _ => none
  | (k, v) :: rest, key => if k == key then some v else lookupAttr rest key

mutual
/-- elem.iter(tag): the element itself followed by all descendants with
the given tag, in document (preorder) order. -/
def iterTagE (t : String) : Elem → List Elem
  | .mk tg a x cs tl =>
      (if tg == t then [Elem.mk tg a x cs tl] else []) ++ iterTagL t cs
def iterTagL (t : String) : ElemList → List Elem
  | .nil => []
  | .cons e es => iterTagE t e ++ iterTagL t es
end

/-- Strict descendants with the given tag in document order
(the candidate list of find(".//tag") and findall(".//tag")). -/
def descTag (t : String) (e : Elem) : List Elem :=
  iterTagL t e.children

/-- find(".//tag"): first strict descendant with the tag. -/
def findDesc (t : String) (e : Elem) : Option Elem :=
  (descTag t e).head?

/-- Truthiness filter the source applies to every w:t text before
collecting it (if t_elem.text: absent and empty texts are skipped). -/
def truthyText (te : Elem) : Option String :=
  match te.text with
  | some s => if s == "" then none else some s
  | none => none

/-- Text extraction of word_indexer.py / word_element_analysis.py:
concatenate the text of every w:t under the element (self included),
no separator, skipping falsy (absent or empty) texts. -/
def get_text (e : Elem) : String :=
  ((iterTagE "w:t" e).filterMap truthyText).foldl (fun a s => a ++ s) ""

/-- Formatting hints of word_indexer._get_formatting_hints: empty or
placeholder from the text, then bold, italic and shaded from descendant
w:b, w:i and w:shd nodes. -/
def get_formatting_hints (element : Elem) (text : String) : List String :=
  let h1 : List String :=
    if !pyStripTruthy text then ["empty"]
    else if placeholderSearch text then ["placeholder"] else []
  let h2 : List String :=
    h1 ++ (if (findDesc "w:b" element).isSome then ["bold"] else [])
  let h3 : List String :=
    h2 ++ (if (findDesc "w:i" element).isSome then ["italic"] else [])
  match findDesc "w:shd" element with
  | some shd =>
      let fill := (lookupAttr shd.attrs "w:fill").getD ""
      if fill != "" && !(["", "auto", "ffffff"].contains (pyLower fill)) then
        h3 ++ ["shaded"]
      else h3
  | none => h3

/-- Answer-target test of word_element_analysis.is_answer_target:
empty/whitespace-only text, or a placeholder pattern in the stripped
text. -/
def is_answer_target (text : String) : Bool :=
  let stripped := pyStrip text
  !pyStripTruthy stripped || placeholderSearch stripped

/-- Marker appended by word_indexer._get_target_marker. -/
def get_target_marker (text : String) : String :=
  let stripped := pyStrip text
  if !pyStripTruthy stripped then " ← answer target"
  else if placeholderSearch stripped then " ← answer target"
  else ""

/-- COMPLEX_TAGS of word_indexer.py, in the order written in the
source (the source iterates a Python set of these four strings; the
iteration order is fixed within a process). -/
def COMPLEX_TAGS : List String := ["w:sdt", "w:fldChar", "w:txbxContent", "w:object"]

/-- Complexity detection of word_indexer._detect_complex. -/
def detect_complex (element : Elem) : Option String :=
  match COMPLEX_TAGS.find? (fun t => (findDesc t element).isSome) with
  | some t => some (t.drop 2)
  | none =>
      if element.tag == "w:tc" && !(descTag "w:tbl" element).isEmpty then
        some "nested_table"
      else
        let gsHit : Option String :=
          match findDesc "w:gridSpan" element with
          | some gs =>
              let val := (lookupAttr gs.attrs "w:val").getD ""
              if val != "" && val != "1" then some ("gridSpan=" ++ val) else none
          | none => none
        match gsHit with
        | some s => some s
        | none =>
            if (findDesc "w:vMerge" element).isSome then some "vMerge" else none

def attrsToXml : List (String × String) → String
  | [] => ""
  | (k, v) :: rest => " " ++ k ++ "=\"" ++ v ++ "\"" ++ attrsToXml rest

mutual
/-- Plain serializer standing in for etree.tostring; used only to
render the raw snippet of a COMPLEX line.  No claim depends on the
exact serialization format. -/
def elemToXml : Elem → String
  | .mk t a x cs tl =>
      "<" ++ t ++ attrsToXml a ++ ">" ++ (x.getD "") ++ listToXml cs
        ++ "</" ++ t ++ ">" ++ (tl.getD "")
def listToXml : ElemList → String
  | .nil => ""
  | .cons e es => elemToXml e ++ listToXml es
end

/-- Truncation of large COMPLEX snippets: raw[:500] + "..." . -/
def pyTruncate500 (s : String) : String :=
  if s.toList.length > 500 then String.mk (s.toList.take 500) ++ "..." else s

/-- Compact line for one table cell, word_indexer._index_cell.  Returns
the emitted line and whether the cell was recorded as complex. -/
def index_cell (cell : Elem) (element_id : String) : String × Bool :=
  match detect_complex cell with
  | some ct =>
      (element_id ++ ": COMPLEX(" ++ ct ++ "): " ++ pyTruncate500 (elemToXml cell),
       true)
  | none =>
      let text := get_text cell
      let hints := get_formatting_hints cell text
      let marker := get_target_marker text
      let hintStr :=
        if hints.isEmpty then "" else " [" ++ String.intercalate ", " hints ++ "]"
      (element_id ++ ": \"" ++ text ++ "\"" ++ hintStr ++ marker, false)

/-- Local name of a prefixed tag (etree.QName(...).localname). -/
def localName (t : String) : String :=
  match t.toList.dropWhile (fun c => c != ':') with
  | [] => t
  | _ :: rest => String.mk rest

/-- One positional XPath segment list for the element reached by the
index path, mirroring word_indexer._build_xpath_to: each node gets its
prefixed tag and, when same-tag siblings exist, a 1-based position
predicate. -/
def xpathSegs : Elem → List Nat → List String
  | _, [] => []
  | root, i :: p =>
      match root.children.nth i with
      | none => []
      | some c =>
          let same := root.children.idxWithTag c.tag 0
          let pos1 := (same.findIdx (fun x => x.1 == i)) + 1
          let qname :=
            if same.length > 1 then c.tag ++ "[" ++ Nat.repr pos1 ++ "]" else c.tag
          qname :: xpathSegs c p

/-- XPath from the body root to the element at the index path. -/
def build_xpath_from (root : Elem) (path : List Nat) : String :=
  "./" ++ String.intercalate "/" (xpathSegs root path)

/-- Compact extraction result, src/models.py CompactStructureResponse
(the id_to_xpath dict is an insertion-ordered association list). -/
structure CompactResp where
  compact_text : String
  id_to_xpath : List (String × String)
  complex_elements : List String
  deriving DecidableEq

/-- Index one table row: IDs Tt-Rr-Cc over direct w:tc children,
1-based.  Returns (id_to_xpath entries, lines, complex ids). -/
def index_row (body : Elem) (tblIdx : Nat) (tblNum : Nat) (rowIdx : Nat)
    (rowNum : Nat) (cells : List (Nat × Elem)) (cellNum : Nat) :
    List (String × String) × List String × List String :=
  match cells with
  | [] => ([], [], [])
  | (ci, cell) :: rest =>
      let element_id := "T" ++ Nat.repr tblNum ++ "-R" ++ Nat.repr rowNum
        ++ "-C" ++ Nat.repr cellNum
      let xpath := build_xpath_from body [tblIdx, rowIdx, ci]
      let (line, isCplx) := index_cell cell element_id
      let (ids, lines, cplx) :=
        index_row body tblIdx tblNum rowIdx rowNum rest (cellNum + 1)
      ((element_id, xpath) :: ids, line :: lines,
       (if isCplx then [element_id] else []) ++ cplx)

/-- Index all rows of a table, word_indexer._index_table: rows are the
direct w:tr children, cells the direct w:tc children of each row. -/
def index_rows (body : Elem) (tblIdx : Nat) (tblNum : Nat)
    (rows : List (Nat × Elem)) (rowNum : Nat) :
    List (String × String) × List String × List String :=
  match rows with
  | [] => ([], [], [])
  | (ri, row) :: rest =>
      let cells := row.children.idxWithTag "w:tc" 0
      let (ids, lines, cplx) := index_row body tblIdx tblNum ri rowNum cells 1
      let (ids2, lines2, cplx2) := index_rows body tblIdx tblNum rest (rowNum + 1)
      (ids ++ ids2, lines ++ lines2, cplx ++ cplx2)

def index_table (body : Elem) (tblIdx : Nat) (tbl : Elem) (tblNum : Nat) :
    List (String × String) × List String × List String :=
  index_rows body tblIdx tblNum (tbl.children.idxWithTag "w:tr" 0) 1

/-- Compact line for a top-level paragraph,
word_indexer._index_paragraph (same line format as a cell). -/
def index_paragraph (body : Elem) (childIdx : Nat) (para : Elem)
    (element_id : String) :
    List (String × String) × List String × List String :=
  let xpath := build_xpath_from body [childIdx]
  let (line, isCplx) := index_cell para element_id
  ([(element_id, xpath)], [line], if isCplx then [element_id] else [])

/-- Walk the direct children of the body with independent paragraph and
table counters, word_indexer.extract_structure_compact main loop. -/
def extract_children (body : Elem) : ElemList → Nat → Nat → Nat →
    List (String × String) × List String × List String
  | .nil, _, _, _ => ([], [], [])
  | .cons c rest, childIdx, pCnt, tCnt =>
      if localName c.tag == "tbl" then
        let (ids, lines, cplx) := index_table body childIdx c (tCnt + 1)
        let (ids2, lines2, cplx2) :=
          extract_children body rest (childIdx + 1) pCnt (tCnt + 1)
        (ids ++ ids2, lines ++ lines2, cplx ++ cplx2)
      else if localName c.tag == "p" then
        let (ids, lines, cplx) :=
          index_paragraph body childIdx c ("P" ++ Nat.repr (pCnt + 1))
        let (ids2, lines2, cplx2) :=
          extract_children body rest (childIdx + 1) (pCnt + 1) tCnt
        (ids ++ ids2, lines ++ lines2, cplx ++ cplx2)
      else
        extract_children body rest (childIdx + 1) pCnt tCnt

/-- The compact indexer, word_indexer.extract_structure_compact, on the
parsed body (the bytes-to-tree step is the external lxml/zip codec). -/
def extract_structure_compact (body : Elem) : CompactResp :=
  let (ids, lines, cplx) := extract_children body body.children 0 0 0
  { compact_text := String.intercalate "\n" lines
    id_to_xpath := ids
    complex_elements := cplx }

/-- Embedding of an insertion-XML string through the external lxml
parser as the writer consumes it (xml_snippet_matching.parse_snippet):
ok — the string parses to an element, directly or after wrapping with
namespace declarations; bad — both parses raise XMLSyntaxError and the
parser returns None.  The parser has a third outcome — a string whose
direct parse fails but whose wrapped parse succeeds with no element
children raises an uncaught IndexError at wrapper_elem[0]; it is
modelled by SnippetStr below for the snippet-locator path, while the
writer-level claims condition on the two outcomes here. -/
inductive Snippet where
  | ok (e : Elem)
  | bad
  deriving DecidableEq

def parse_snippet : Snippet → Option Elem
  | .ok e => some e
  | .bad => none

/-- Python dict equality on attribute maps (order-independent), as used
by dict(a.attrib) != dict(b.attrib). -/
def attrsSubset (a b : List (String × String)) : Bool :=
  a.all (fun kv => lookupAttr b kv.1 == some kv.2)

def dictEq (a b : List (String × String)) : Bool :=
  attrsSubset a b && attrsSubset b a

mutual
/-- Structural equality of xml_snippet_matching._elements_structurally_equal:
exact tags, attribute maps as dicts, stripped direct text, stripped
tail text, equal children counts and recursive equality pairwise. -/
def structEq : Elem → Elem → Bool
  | .mk t1 a1 x1 cs1 tl1, .mk t2 a2 x2 cs2 tl2 =>
      t1 == t2 && dictEq a1 a2
        && pyStrip (x1.getD "") == pyStrip (x2.getD "")
        && pyStrip (tl1.getD "") == pyStrip (tl2.getD "")
        && cs1.length == cs2.length && structEqL cs1 cs2
/-- Pairwise recursion over zipped children (surplus entries are never
reached because the caller checks the lengths first). -/
def structEqL : ElemList → ElemList → Bool
  | .nil, _ => true
  | .cons _ _, .nil => true
  | .cons a as, .cons b bs => structEq a b && structEqL as bs
end

mutual
/-- body.iter(tag) with index paths: the element itself and every
descendant with the tag, in document order, each with its child-index
path from the root. -/
def taggedPathsE (t : String) : Elem → List Nat → List (List Nat × Elem)
  | .mk tg a x cs tl, p =>
      (if tg == t then [(p, Elem.mk tg a x cs tl)] else [])
        ++ taggedPathsL t cs p 0
def taggedPathsL (t : String) : ElemList → List Nat → Nat → List (List Nat × Elem)
  | .nil, _, _ => []
  | .cons c cs, p, i => taggedPathsE t c (p ++ [i]) ++ taggedPathsL t cs p (i + 1)
end

/-- Embedding of an arbitrary snippet string through parse_snippet,
with the full outcome set of the source: wellFormed — the string
parses, directly or after namespace wrapping (the wrapper's first
element child); malformed — both parses raise XMLSyntaxError and the
function returns None; elementLess — the direct parse fails while the
wrapped parse succeeds with no element children (plain text,
whitespace-only, or the empty string), and wrapper_elem[0] raises an
uncaught IndexError. -/
inductive SnippetStr where
  | wellFormed (e : Elem)
  | malformed
  | elementLess
  deriving DecidableEq

/-- xml_snippet_matching.parse_snippet over the full outcome set: the
error value models the uncaught Python IndexError escaping the
function (contrary to its own docstring, which promises None for any
snippet that is not valid XML). -/
def parse_snippet_str : SnippetStr → Except String (Option Elem)
  | .wellFormed e => .ok (some e)
  | .malformed => .ok none
  | .elementLess => .error "IndexError: list index out of range"

/-- Snippet search of xml_snippet_matching.find_snippet_in_body: parse
the snippet (a parse returning None yields the empty list; the
IndexError propagates), then collect the XPath of every element with
the snippet root tag that is structurally equal to it. -/
def find_snippet_in_body (body : Elem) (snippet : SnippetStr) :
    Except String (List String) :=
  match parse_snippet_str snippet with
  | .error e => .error e
  | .ok none => .ok []
  | .ok (some se) =>
      .ok (((taggedPathsE se.tag body []).filter (fun pe => structEq pe.2 se)).map
        (fun pe => build_xpath_from body pe.1))

inductive LocationStatus where
  | matched
  | notFound
  | ambiguous
  deriving DecidableEq

structure ValidatedLocation where
  pair_id : String
  status : LocationStatus
  xpath : Option String
  context : Option String
  deriving DecidableEq

/-- Context text of word_fields._get_context_text: w:t texts joined
with single spaces, truncated at 100 characters. -/
def get_context_text (element : Elem) : String :=
  let text := String.intercalate " " ((iterTagE "w:t" element).filterMap truthyText)
  if text.toList.length > 100 then String.mk (text.toList.take 100) ++ "..." else text

/-- Snippet branch of word_location_validator._validate_snippet.  The
matched branch re-resolves the XPath to fetch context text; in the
embedding the element is fetched through the recorded index path
(same element, since build_xpath_from is injective on the tree).  The
IndexError raised inside find_snippet_in_body propagates out of the
validator uncaught. -/
def validate_snippet (pair_id : String) (body : Elem) (snippet : SnippetStr) :
    Except String ValidatedLocation :=
  match parse_snippet_str snippet with
  | .error e => .error e
  | .ok none =>
      .ok { pair_id := pair_id, status := .notFound, xpath := none, context := none }
  | .ok (some se) =>
      let hits := (taggedPathsE se.tag body []).filter (fun pe => structEq pe.2 se)
      match hits with
      | [] =>
          .ok { pair_id := pair_id, status := .notFound, xpath := none,
                context := none }
      | [pe] =>
          .ok { pair_id := pair_id, status := .matched,
                xpath := some (build_xpath_from body pe.1),
                context := some (get_context_text pe.2) }
      | _ =>
          .ok { pair_id := pair_id, status := .ambiguous, xpath := none,
                context := some ("Snippet matched " ++ Nat.repr hits.length
                  ++ " locations") }

/-- Generic first-wins association lookup. -/
def lookupA {α : Type} : List (String × α) → String → Option α
  | [], _ => none
  | (k, v) :: rest, key => if k == key then some v else lookupA rest key

def ElemList.toL : ElemList → List Elem
  | .nil => []
  | .cons e es => e :: es.toL

def ElemList.ofL : List Elem → ElemList
  | [] => .nil
  | e :: es => .cons e (ofL es)

/-- find with a direct child path (elem.find("w:x", NAMESPACES)). -/
def findChild (t : String) (e : Elem) : Option Elem :=
  ((e.children.idxWithTag t 0).head?).map (fun ic => ic.2)

/-- Run-formatting record built by xml_utils.extract_formatting (the
Python dict with its fixed key vocabulary). -/
structure Fmt where
  font_ascii : Option String := none
  font_hAnsi : Option String := none
  font_cs : Option String := none
  font_eastAsia : Option String := none
  sz : Option String := none
  szCs : Option String := none
  bold : Bool := false
  italic : Bool := false
  underline : Option String := none
  color : Option String := none
  deriving DecidableEq

/-- Truthiness of the formatting dict: some key present. -/
def Fmt.truthy (f : Fmt) : Bool :=
  f.font_ascii.isSome || f.font_hAnsi.isSome || f.font_cs.isSome
    || f.font_eastAsia.isSome || f.sz.isSome || f.szCs.isSome || f.bold
    || f.italic || f.underline.isSome || f.color.isSome

/-- Element-level core of xml_utils.extract_formatting (word_writer
imports it as extract_formatting_from_element; the string-parsing
wrapper is the external codec): locate a w:rPr as direct child, else
under the first descendant run, else under w:pPr, and read the known
properties from it. -/
def extract_formatting_from_element (elem : Elem) : Fmt :=
  let rpr0 := findChild "w:rPr" elem
  let rpr1 := match rpr0 with
    | some r => some r
    | none =>
        match findDesc "w:r" elem with
        | some fr => findChild "w:rPr" fr
        | none => none
  let rpr2 := match rpr1 with
    | some r => some r
    | none =>
        match findChild "w:pPr" elem with
        | some ppr => findChild "w:rPr" ppr
        | none => none
  match rpr2 with
  | none => {}
  | some rpr =>
      let rfonts := findChild "w:rFonts" rpr
      { font_ascii := rfonts.bind (fun rf => lookupA rf.attrs "w:ascii")
        font_hAnsi := rfonts.bind (fun rf => lookupA rf.attrs "w:hAnsi")
        font_cs := rfonts.bind (fun rf => lookupA rf.attrs "w:cs")
        font_eastAsia := rfonts.bind (fun rf => lookupA rf.attrs "w:eastAsia")
        sz := (findChild "w:sz" rpr).bind (fun s => lookupA s.attrs "w:val")
        szCs := (findChild "w:szCs" rpr).bind (fun s => lookupA s.attrs "w:val")
        bold := (findChild "w:b" rpr).isSome
        italic := (findChild "w:i" rpr).isSome
        underline :=
          match findChild "w:u" rpr with
          | some u =>
              some (match lookupA u.attrs "w:val" with
                    | some s => if s != "" then s else "single"
                    | none => "single")
          | none => none
        color := (findChild "w:color" rpr).bind (fun c => lookupA c.attrs "w:val") }

/-- The rFonts attribute list assembled by build_run_xml, in the fixed
key order of the source loop. -/
def fontAttrsOf (f : Fmt) : List (String × String) :=
  (match f.font_ascii with | some v => [("w:ascii", v)] | none => [])
    ++ (match f.font_hAnsi with | some v => [("w:hAnsi", v)] | none => [])
    ++ (match f.font_cs with | some v => [("w:cs", v)] | none => [])
    ++ (match f.font_eastAsia with | some v => [("w:eastAsia", v)] | none => [])

/-- The w:rPr children assembled by build_run_xml: rFonts (when any
font attribute is present), b, i, u, sz, szCs, color, in source order. -/
def rprKidsOf (f : Fmt) : List Elem :=
  (if (fontAttrsOf f).isEmpty then []
   else [Elem.mk "w:rFonts" (fontAttrsOf f) none .nil none])
    ++ (if f.bold then [Elem.mk "w:b" [] none .nil none] else [])
    ++ (if f.italic then [Elem.mk "w:i" [] none .nil none] else [])
    ++ (match f.underline with
        | some v => [Elem.mk "w:u" [("w:val", v)] none .nil none]
        | none => [])
    ++ (match f.sz with
        | some v => [Elem.mk "w:sz" [("w:val", v)] none .nil none]
        | none => [])
    ++ (match f.szCs with
        | some v => [Elem.mk "w:szCs" [("w:val", v)] none .nil none]
        | none => [])
    ++ (match f.color with
        | some v => [Elem.mk "w:color" [("w:val", v)] none .nil none]
        | none => [])

/-- The xml:space="preserve" marker set when the text starts or ends
with a space. -/
def tAttrsOf (text : String) : List (String × String) :=
  if text != "" && (text.toList.head? == some ' '
      || text.toList.getLast? == some ' ')
  then [("xml:space", "preserve")] else []

/-- Run construction of xml_utils.build_run_xml, as the element the
built string parses back to: optional w:rPr holding the assembled
property children, then a w:t carrying the text. -/
def build_run_xml (text : String) (f : Fmt) : Elem :=
  Elem.mk "w:r" [] none
    (ElemList.ofL
      ((if f.truthy then
          [Elem.mk "w:rPr" [] none (ElemList.ofL (rprKidsOf f)) none]
        else [])
        ++ [Elem.mk "w:t" (tAttrsOf text) (some text) .nil none]))
    none

/-- Property tags preserved by _replace_content (w:pPr, w:tcPr). -/
def preserveTags : List String := ["w:pPr", "w:tcPr"]

/-- word_writer._replace_content: drop every child whose tag is not a
preserve tag, clear the direct text, then insert the parsed content;
a bare w:r inserted into a w:tc is wrapped in a synthetic w:p. -/
def replace_content (target : Elem) (insertion : Snippet) : Elem :=
  let cleared : Elem :=
    .mk target.tag target.attrs none (target.children.keepTags preserveTags)
      target.tail
  match parse_snippet insertion with
  | none => cleared
  | some ne =>
      let isTableCell := target.tag == "w:tc"
      let isRun := ne.tag == "w:r"
      let ins : Elem :=
        if isTableCell && isRun then
          .mk "w:p" [] none (.cons ne .nil) none
        else ne
      .mk cleared.tag cleared.attrs cleared.text
        (cleared.children.app (.cons ins .nil)) cleared.tail

/-- word_writer._append_content: append the parsed content as a
trailing child; a no-op when the snippet does not parse. -/
def append_content (target : Elem) (insertion : Snippet) : Elem :=
  match parse_snippet insertion with
  | none => target
  | some ne =>
      .mk target.tag target.attrs target.text
        (target.children.app (.cons ne .nil)) target.tail

/-- Truthiness of the placeholder argument (None and the empty string
both fall through to the pattern branch, if placeholder:). -/
def phTruthy : Option String → Bool
  | some p => p != ""
  | none => false

/-- Decide whether one w:t text triggers a substitution and compute the
replaced text: the literal branch uses Python str.replace (all
occurrences), the pattern branch tries the Enter pattern first, then
the underscore pattern, substituting every occurrence of the matching
pattern in this text (re.sub). -/
def tryLeaf (ph : Option String) (ntext : String) (x : String) : Option String :=
  if phTruthy ph then
    let p := ph.getD ""
    if strContains x p then some (pyReplaceAll x p ntext) else none
  else if searchEnter x.toList then
    some (String.mk (subEnter ntext.toList x.toList))
  else if searchUnder x.toList then
    some (String.mk (subUnder ntext.toList x.toList))
  else none

mutual
/-- Walk of target.iter(w:t) in _replace_placeholder: preorder document
order, stop after the first w:t whose text triggers a substitution.
Returns the updated tree and whether a substitution happened. -/
def rpWalkE (ph : Option String) (nt : String) : Elem → Elem × Bool
  | .mk tg a x cs tl =>
      if tg == "w:t" then
        match x with
        | some xt =>
            match tryLeaf ph nt xt with
            | some newT => (.mk tg a (some newT) cs tl, true)
            | none =>
                let r := rpWalkL ph nt cs
                (.mk tg a x r.1 tl, r.2)
        | none =>
            let r := rpWalkL ph nt cs
            (.mk tg a x r.1 tl, r.2)
      else
        let r := rpWalkL ph nt cs
        (.mk tg a x r.1 tl, r.2)
def rpWalkL (ph : Option String) (nt : String) : ElemList → ElemList × Bool
  | .nil => (.nil, false)
  | .cons e es =>
      let r := rpWalkE ph nt e
      if r.2 then (.cons r.1 es, true)
      else
        let r2 := rpWalkL ph nt es
        (.cons r.1 r2.1, r2.2)
end

/-- The replacement text computed by _replace_placeholder: the text of
the first descendant w:t of the parsed insertion — which is Python
None (here none) when that w:t carries no text — or the empty string
when the insertion has no w:t at all. -/
def insertion_new_text (ne : Elem) : Option String :=
  match findDesc "w:t" ne with
  | some te => te.text
  | none => some ""

/-- Whether a w:t text makes the _replace_placeholder loop reach its
substitution call: the literal branch tests substring containment, the
pattern branch searches the two placeholder patterns.  Neither test
reads the replacement text. -/
def leafFires (ph : Option String) (x : String) : Bool :=
  if phTruthy ph then strContains x (ph.getD "")
  else searchEnter x.toList || searchUnder x.toList

mutual
/-- Whether some w:t under the element (self included) has a text that
fires, i.e. whether the loop of _replace_placeholder reaches a
substitution call on this target. -/
def firesE (ph : Option String) : Elem → Bool
  | .mk tg _ x cs _ =>
      (tg == "w:t" && (match x with
        | some xt => leafFires ph xt
        | none => false))
        || firesL ph cs
def firesL (ph : Option String) : ElemList → Bool
  | .nil => false
  | .cons e es => firesE ph e || firesL ph es
end

/-- word_writer._replace_placeholder: a no-op when the insertion does
not parse; otherwise substitute in the first matching text leaf of the
target.  When the insertion's first descendant w:t carries no text,
new_text is Python None and the substitution call — str.replace or
re.sub with a None replacement — raises an uncaught TypeError at the
first matching leaf, rewriting nothing; with no matching leaf the loop
completes silently. -/
def replace_placeholder (target : Elem) (insertion : Snippet)
    (placeholder : Option String) : Except String Elem :=
  match parse_snippet insertion with
  | none => .ok target
  | some ne =>
      match insertion_new_text ne with
      | some nt => .ok (rpWalkE placeholder nt target).1
      | none =>
          if firesE placeholder target then
            .error "TypeError: replace() argument 2 must be str, not None"
          else .ok target

/-- Step vocabulary of the _XPATH_SAFE_RE pattern of word_writer.py. -/
def xpathStepNames : List String :=
  ["body", "tbl", "tr", "tc", "p", "r", "sdt", "sdtContent"]

/-- One parsed step of a safe positional XPath. -/
structure XStep where
  name : String
  pos : Option Nat
  deriving DecidableEq

def splitSlash : List Char → List (List Char)
  | [] => [[]]
  | c :: rest =>
      if c == '/' then [] :: splitSlash rest
      else
        match splitSlash rest with
        | [] => [[c]]
        | g :: gs => (c :: g) :: gs

def digitsToNat (cs : List Char) : Nat :=
  cs.foldl (fun n c => n * 10 + (c.toNat - 48)) 0

/-- Parse one XPath step of the form w:NAME or w:NAME[digits], with
NAME in the fixed vocabulary.  Digits are ASCII (the Python \d class
also accepts other Unicode decimal digits; the OOXML paths in play are
ASCII). -/
def parseStepChars (cs : List Char) : Option XStep :=
  match cs with
  | 'w' :: ':' :: rest =>
      let nameCs := rest.takeWhile (fun c => c != '[')
      let brCs := rest.drop nameCs.length
      let nm := String.mk nameCs
      if xpathStepNames.contains nm then
        match brCs with
        | [] => some { name := nm, pos := none }
        | '[' :: ds =>
            let digs := ds.takeWhile Char.isDigit
            let after := ds.drop digs.length
            if !digs.isEmpty && after == [']'] then
              some { name := nm, pos := some (digitsToNat digs) }
            else none
        | _ => none
      else none
  | _ => none

def parseStepsList : List (List Char) → Option (List XStep)
  | [] => some []
  | g :: gs =>
      match parseStepChars g, parseStepsList gs with
      | some st, some sts => some (st :: sts)
      | _, _ => none

/-- Parse of a locator against the fixed positional grammar.  Returns
some steps exactly when _XPATH_SAFE_RE matches the string: a leading
dot, then one or more /w:NAME steps with optional [digits]. -/
def parse_xpath (s : String) : Option (List XStep) :=
  match splitSlash s.toList with
  | d :: g :: gs => if d = ['.'] then parseStepsList (g :: gs) else none
  | _ => none

/-- The check of word_writer._validate_xpath (raises on no match). -/
def xpath_matches_safe (s : String) : Bool :=
  (parse_xpath s).isSome

/-- One XPath child step applied to one context node carried with its
index path: candidates are the children with the step tag in document
order; a position predicate [k] keeps the k-th candidate (1-based,
nothing when out of range or zero). -/
def stepSel (st : XStep) (pe : List Nat × Elem) : List (List Nat × Elem) :=
  let cands := pe.2.children.idxWithTag ("w:" ++ st.name) 0
  match st.pos with
  | none => cands.map (fun ic => (pe.1 ++ [ic.1], ic.2))
  | some k =>
      if k = 0 then []
      else
        match cands.get? (k - 1) with
        | some ic => [(pe.1 ++ [ic.1], ic.2)]
        | none => []

/-- Evaluation of a safe positional XPath from the body (the lxml
engine restricted to the validated grammar), in document order. -/
def resolveSteps (root : Elem) (steps : List XStep) : List (List Nat × Elem) :=
  steps.foldl (fun ps st => ps.flatMap (stepSel st)) [([], root)]

inductive InsertionMode where
  | replaceContentM
  | appendM
  | replacePlaceholderM
  deriving DecidableEq

/-- AnswerPayload of src/models.py, with the insertion XML embedded as
its parse outcome (a None insertion_xml with a content mode crashes
the source before reaching the writer and is not modelled). -/
structure AnswerPayload where
  pair_id : String
  xpath : String
  insertion_xml : Snippet
  answer_text : Option String
  mode : InsertionMode
  deriving DecidableEq

/-- Fast-path test of _apply_answer: answer_text is not None and
answer_text.strip() is truthy. -/
def fastPath (a : AnswerPayload) : Bool :=
  match a.answer_text with
  | some s => pyStripTruthy s
  | none => false

/-- word_writer._apply_answer: validate the XPath against the grammar
(hard error), resolve it (hard error when nothing matches), build the
insertion from answer_text when the fast path applies, then dispatch
on the insertion mode.  Errors model the ValueError aborting the call. -/
def apply_answer (body : Elem) (a : AnswerPayload) : Except String Elem :=
  match parse_xpath a.xpath with
  | none => .error ("XPath does not match expected pattern: " ++ a.xpath)
  | some steps =>
      match resolveSteps body steps with
      | [] =>
          .error ("XPath " ++ a.xpath ++ " for pair_id " ++ a.pair_id
            ++ " did not match any element in the document")
      | pe :: _ =>
          let target := pe.2
          let ins : Snippet :=
            if fastPath a then
              .ok (build_run_xml (a.answer_text.getD "")
                (extract_formatting_from_element target))
            else a.insertion_xml
          match a.mode with
          | .replaceContentM =>
              .ok (body.modifyAt pe.1 (fun t => replace_content t ins))
          | .appendM =>
              .ok (body.modifyAt pe.1 (fun t => append_content t ins))
          | .replacePlaceholderM =>
              match replace_placeholder pe.2 ins none with
              | .ok t2 => .ok (body.modifyAt pe.1 (fun _ => t2))
              | .error e => .error e

/-- word_writer.write_answers on the parsed body: apply the answers in
order; the first error aborts the whole call with no output bytes
(ZIP repackaging is the external codec). -/
def write_answers (body : Elem) (answers : List AnswerPayload) :
    Except String Elem :=
  answers.foldlM apply_answer body

/-- Text extraction of word_verifier._extract_text: w:t texts joined
with single spaces (unlike the indexer, which joins with no
separator). -/
def verifier_text (e : Elem) : String :=
  String.intercalate " " ((iterTagE "w:t" e).filterMap truthyText)

/-- Structural violations reported by
word_verifier._check_structural_issues.  The source formats each as a
message string with a 50-character context excerpt; the two kinds are
kept as constructors carrying that excerpt. -/
inductive StructIssue where
  | bareRun (context : String)
  | noParagraph (context : String)
  deriving DecidableEq

/-- Issues contributed by one w:tc: one bareRun per direct w:r child,
plus one noParagraph when it has no direct w:p child. -/
def tcIssues (tc : Elem) : List StructIssue :=
  let ctx := String.mk ((verifier_text tc).toList.take 50)
  ((tc.children.toL.filter (fun c => c.tag == "w:r")).map
      (fun _ => StructIssue.bareRun ctx))
    ++ (if (tc.children.toL.filter (fun c => c.tag == "w:p")).isEmpty then
          [StructIssue.noParagraph ctx]
        else [])

/-- word_verifier._check_structural_issues over body.iter(w:tc). -/
def check_structural_issues (body : Elem) : List StructIssue :=
  (iterTagE "w:tc" body).flatMap tcIssues

inductive ContentStatus where
  | matchedC
  | mismatchedC
  | missingC
  deriving DecidableEq

structure ExpectedAnswer where
  pair_id : String
  xpath : String
  expected_text : String
  deriving DecidableEq

structure ContentResult where
  pair_id : String
  status : ContentStatus
  expected : String
  actual : String
  deriving DecidableEq

/-- Per-answer body of word_verifier._verify_content, given the list
the XPath resolved to: MISSING with empty actual when nothing matched;
otherwise MATCHED exactly when the expected text occurs as a
case-sensitive substring (the Python in operator) of the joined text
of the first match, else MISMATCHED. -/
def verify_one (resolved : List Elem) (pair_id expected : String) : ContentResult :=
  match resolved with
  | [] =>
      { pair_id := pair_id, status := .missingC, expected := expected, actual := "" }
  | m :: _ =>
      let actual := verifier_text m
      { pair_id := pair_id
        status := if strContains actual expected then .matchedC else .mismatchedC
        expected := expected
        actual := actual }

/-- Resolution used by the verifier for references written in the safe
positional grammar (every reference produced by the indexer is; the
source hands the string to the lxml XPath engine directly). -/
def resolveForVerify (body : Elem) (xpath : String) : List Elem :=
  match parse_xpath xpath with
  | some steps => (resolveSteps body steps).map (fun pe => pe.2)
  | none => []

/-- word_verifier._verify_content over a list of expected answers. -/
def verify_content (body : Elem) (answers : List ExpectedAnswer) :
    List ContentResult :=
  answers.map (fun a =>
    verify_one (resolveForVerify body a.xpath) a.pair_id a.expected_text)

/-- PDF widget kinds distinguished by pdf_writer._set_widget_value
(checkbox against everything else). -/
inductive PdfFieldType where
  | checkbox
  | textField
  | dropdown
  | listbox
  | radio
  deriving DecidableEq

/-- A PDF form widget: its kind and current value (string for text-like
widgets, boolean for checkboxes). -/
structure PdfWidget where
  ftype : PdfFieldType
  value : String ⊕ Bool
  deriving DecidableEq

/-- Values treated as checked, pdf_writer._TRUTHY_VALUES. -/
def pdfTruthyValues : List String := ["true", "yes", "1", "checked", "on"]

/-- pdf_writer._coerce_checkbox_value. -/
def coerce_checkbox_value (v : String) : Bool :=
  pdfTruthyValues.contains (pyLower (pyStrip v))

/-- pdf_writer._set_widget_value. -/
def set_widget_value (w : PdfWidget) (v : String) : PdfWidget :=
  if w.ftype = .checkbox then { w with value := .inr (coerce_checkbox_value v) }
  else { w with value := .inl v }

def totalWidgets (pages : List (List PdfWidget)) : Nat :=
  (pages.map List.length).sum

/-- pdf_writer._build_field_index: widgets in page order get F1, F2, …
mapped here to the 0-based global widget position. -/
def build_field_index (pages : List (List PdfWidget)) : List (String × Nat) :=
  (List.range (totalWidgets pages)).map (fun i => ("F" ++ Nat.repr (i + 1), i))

/-- Update the widget at a 0-based global position across pages. -/
def setWidgetIn : List (List PdfWidget) → Nat → String → List (List PdfWidget)
  | [], _, _ => []
  | pg :: rest, n, v =>
      if h : n < pg.length then
        pg.set n (set_widget_value (pg.get ⟨n, h⟩) v) :: rest
      else pg :: setWidgetIn rest (n - pg.length) v

/-- pdf_writer.write_answers: build the field index once, then write
each (field_id, value) pair in order, silently skipping field IDs not
in the index. -/
def pdf_write_answers (pages : List (List PdfWidget))
    (answers : List (String × String)) : List (List PdfWidget) :=
  let index := build_field_index pages
  answers.foldl
    (fun pgs a =>
      match lookupA index a.1 with
      | none => pgs
      | some n => setWidgetIn pgs n a.2)
    pages

/-- Sample w:t leaf. -/
def tEl (s : String) : Elem := .mk "w:t" [] (some s) .nil none

/-- Sample run holding one text leaf. -/
def rEl (s : String) : Elem := .mk "w:r" [] none (.cons (tEl s) .nil) none

/-- Sample paragraph holding one run. -/
def pEl (s : String) : Elem := .mk "w:p" [] none (.cons (rEl s) .nil) none

/-- Sample table cell holding one paragraph. -/
def tcEl (s : String) : Elem := .mk "w:tc" [] none (.cons (pEl s) .nil) none

/-- Sample two-cell table row. -/
def trEl (a b : String) : Elem :=
  .mk "w:tr" [] none (.cons (tcEl a) (.cons (tcEl b) .nil)) none

/-- Sample questionnaire table: a header row and one data row whose
second cell is empty. -/
def tblEl : Elem :=
  .mk "w:tbl" [] none
    (.cons (trEl "Question" "Answer")
      (.cons (trEl "What is your full legal name?" "") .nil)) none

/-- Sample body: the questionnaire table and one paragraph. -/
def bodyEl : Elem :=
  .mk "w:body" [] none (.cons tblEl (.cons (pEl "Hello") .nil)) none

/-- C1.  The compact summary never emits "question"/"answer" role tags:
on the data row of the sample questionnaire (first cell holds the
question text, second cell is the empty answer target) the hint list of
the non-target cell is empty and the hint list of the target cell is
exactly ["empty"], so neither cell carries a role tag in its bracketed
hint list; the emitted lines are shown in full.  This contradicts the
claim (and the repository's own cell-safety tests, which require the
substring "question" in the first line). -/
theorem C1_no_role_tags_in_hints :
    get_formatting_hints (tcEl "What is your full legal name?")
        (get_text (tcEl "What is your full legal name?")) = []
    ∧ get_formatting_hints (tcEl "") (get_text (tcEl "")) = ["empty"]
    ∧ index_cell (tcEl "What is your full legal name?") "T1-R2-C1" =
        ("T1-R2-C1: \"What is your full legal name?\"", false)
    ∧ index_cell (tcEl "") "T1-R2-C2" =
        ("T1-R2-C2: \"\" [empty] ← answer target", false) := by
  decide

/-- Children kept by the preserve filter never include a w:p. -/
theorem keepTags_no_p (l : ElemList) :
    (l.keepTags preserveTags).anyTag "w:p" = false := by
  cases l with
  | nil => rfl
  | cons x xs =>
      have ih := keepTags_no_p xs
      by_cases h : x.tag ∈ preserveTags
      · have hd : x.tag = "w:pPr" ∨ x.tag = "w:tcPr" := by
          simpa [preserveTags] using h
        have hx : (x.tag == "w:p") = false := by
          rcases hd with h1 | h1 <;> simp [h1]
        simp [ElemList.keepTags, h, ElemList.anyTag, hx, ih]
      · simpa [ElemList.keepTags, h] using ih

/-- C10.  When the insertion XML fails to parse, _replace_content has
already removed every non-property child and cleared the direct text
before the parse result is inspected, and nothing is inserted: the
result is the stripped element, and it has zero w:p children (so a
table-cell target is left paragraph-less). -/
theorem C10_failed_parse_strips_without_insert (target : Elem) (ins : Snippet)
    (h : parse_snippet ins = none) :
    replace_content target ins =
      Elem.mk target.tag target.attrs none
        (target.children.keepTags preserveTags) target.tail
    ∧ ((replace_content target ins).children.anyTag "w:p" = false) := by
  cases ins with
  | bad =>
      refine ⟨rfl, ?_⟩
      show (Elem.mk target.tag target.attrs none
        (target.children.keepTags preserveTags) target.tail).children.anyTag "w:p" = false
      simpa [Elem.children] using keepTags_no_p target.children
  | ok e => simp [parse_snippet] at h

/-- Witness for C10 at a concrete cell and unparsable snippet. -/
theorem C10_witness :
    replace_content (tcEl "x") Snippet.bad =
      Elem.mk "w:tc" [] none ElemList.nil none
    ∧ (parse_snippet Snippet.bad = none) := by
  have h := C10_failed_parse_strips_without_insert (tcEl "x") Snippet.bad rfl
  exact ⟨by simpa [tcEl, Elem.tag, Elem.attrs, Elem.children, Elem.tail,
    pEl, rEl, tEl, ElemList.keepTags, preserveTags] using h.1, rfl⟩

theorem memb_app (a b : ElemList) (c : Elem) :
    (a.app b).memb c = (a.memb c || b.memb c) := by
  cases a with
  | nil => simp [ElemList.app, ElemList.memb]
  | cons x xs =>
      have ih := memb_app xs b c
      simp [ElemList.app, ElemList.memb, ih, Bool.or_assoc]

theorem memb_keepTags_intro (keep : List String) (l : ElemList) (c : Elem)
    (hm : l.memb c = true) (ht : keep.contains c.tag = true) :
    (l.keepTags keep).memb c = true := by
  cases l with
  | nil => simp [ElemList.memb] at hm
  | cons x xs =>
      have hm2 : x = c ∨ xs.memb c = true := by simpa [ElemList.memb] using hm
      rcases hm2 with hx | hrec
      · subst hx
        have : x.tag ∈ keep := by simpa using ht
        simp [ElemList.keepTags, this, ElemList.memb]
      · have ih := memb_keepTags_intro keep xs c hrec ht
        by_cases hk : x.tag ∈ keep
        · simp [ElemList.keepTags, hk, ElemList.memb, ih]
        · simpa [ElemList.keepTags, hk] using ih

theorem memb_keepTags_elim (keep : List String) (l : ElemList) (c : Elem)
    (hm : (l.keepTags keep).memb c = true) :
    l.memb c = true ∧ keep.contains c.tag = true := by
  cases l with
  | nil => simp [ElemList.keepTags, ElemList.memb] at hm
  | cons x xs =>
      by_cases hk : x.tag ∈ keep
      · have hm2 : x = c ∨ (xs.keepTags keep).memb c = true := by
          simpa [ElemList.keepTags, hk, ElemList.memb] using hm
        rcases hm2 with hx | hrec
        · subst hx
          exact ⟨by simp [ElemList.memb], by simpa using hk⟩
        · have ih := memb_keepTags_elim keep xs c hrec
          exact ⟨by simp [ElemList.memb, ih.1], ih.2⟩
      · have ih := memb_keepTags_elim keep xs c
          (by simpa [ElemList.keepTags, hk] using hm)
        exact ⟨by simp [ElemList.memb, ih.1], ih.2⟩

/-- C3.  Frame effect of replace_content when the insertion parses:
tag and attributes of the target survive, direct text is cleared, every
property child (w:pPr/w:tcPr) of the target survives as an element of
the result (attribute-equal, being the identical node), the inserted
element — wrapped in a synthetic w:p exactly when the target is a w:tc
and the content a bare w:r — is present, and every child of the result
is either a surviving property node or that inserted element, so all
non-property children were removed. -/
theorem C3_replace_content_frame (target ne : Elem) (ins : Snippet)
    (h : parse_snippet ins = some ne) :
    (replace_content target ins).tag = target.tag
    ∧ (replace_content target ins).attrs = target.attrs
    ∧ (replace_content target ins).text = none
    ∧ (∀ c, target.children.memb c = true → preserveTags.contains c.tag = true →
        (replace_content target ins).children.memb c = true)
    ∧ ((replace_content target ins).children.memb
        (if target.tag == "w:tc" && ne.tag == "w:r"
         then Elem.mk "w:p" [] none (.cons ne .nil) none else ne) = true)
    ∧ (∀ c, (replace_content target ins).children.memb c = true →
        (preserveTags.contains c.tag = true ∧ target.children.memb c = true)
        ∨ c = (if target.tag == "w:tc" && ne.tag == "w:r"
               then Elem.mk "w:p" [] none (.cons ne .nil) none else ne)) := by
  cases ins with
  | bad => simp [parse_snippet] at h
  | ok e =>
      have he : ne = e := by simpa [parse_snippet] using h.symm
      subst he
      refine ⟨rfl, rfl, rfl, ?_, ?_, ?_⟩
      · intro c hm ht
        show ((target.children.keepTags preserveTags).app _).memb c = true
        rw [memb_app]
        simp [memb_keepTags_intro preserveTags target.children c hm ht]
      · show ((target.children.keepTags preserveTags).app
          (.cons (if target.tag == "w:tc" && ne.tag == "w:r"
                  then Elem.mk "w:p" [] none (.cons ne .nil) none else ne) .nil)).memb _ = true
        rw [memb_app]
        simp [ElemList.memb]
      · intro c hm
        rw [show (replace_content target (.ok ne)).children =
              ((target.children.keepTags preserveTags).app
                (.cons (if target.tag == "w:tc" && ne.tag == "w:r"
                        then Elem.mk "w:p" [] none (.cons ne .nil) none else ne) .nil))
            from rfl, memb_app] at hm
        rcases Bool.or_eq_true_iff.mp hm with hkeep | hins
        · have := memb_keepTags_elim preserveTags target.children c hkeep
          exact Or.inl ⟨this.2, this.1⟩
        · right
          have : (if target.tag == "w:tc" && ne.tag == "w:r"
                  then Elem.mk "w:p" [] none (.cons ne .nil) none else ne) = c := by
            simpa [ElemList.memb] using hins
          exact this.symm

/-- Witness for C3: replacing the content of a cell that carries a
w:tcPr property node with a bare run. -/
theorem C3_witness :
    (replace_content
        (Elem.mk "w:tc" [] none
          (.cons (Elem.mk "w:tcPr" [("w:fill", "EEEEEE")] none .nil none)
            (.cons (pEl "old") .nil)) none)
        (Snippet.ok (rEl "new"))).text = none
    ∧ (replace_content
        (Elem.mk "w:tc" [] none
          (.cons (Elem.mk "w:tcPr" [("w:fill", "EEEEEE")] none .nil none)
            (.cons (pEl "old") .nil)) none)
        (Snippet.ok (rEl "new"))).children.memb
        (Elem.mk "w:p" [] none (.cons (rEl "new") .nil) none) = true := by
  have h := C3_replace_content_frame
    (Elem.mk "w:tc" [] none
      (.cons (Elem.mk "w:tcPr" [("w:fill", "EEEEEE")] none .nil none)
        (.cons (pEl "old") .nil)) none)
    (rEl "new") (Snippet.ok (rEl "new")) rfl
  refine ⟨h.2.2.1, ?_⟩
  have h5 := h.2.2.2.2.1
  simpa [rEl, tEl, Elem.tag] using h5

/-- C8.  Indexing is deterministic: the compact extraction is a pure
function of the parsed body, so equal input bytes (hence equal parsed
bodies, the lxml parse being a function of the bytes) give identical
compact text, identical id_to_xpath maps and identical complex lists. -/
theorem C8_index_deterministic (b1 b2 : Elem) (h : b1 = b2) :
    (extract_structure_compact b1).compact_text
        = (extract_structure_compact b2).compact_text
    ∧ (extract_structure_compact b1).id_to_xpath
        = (extract_structure_compact b2).id_to_xpath
    ∧ (extract_structure_compact b1).complex_elements
        = (extract_structure_compact b2).complex_elements := by
  subst h
  exact ⟨rfl, rfl, rfl⟩

/-- Witness for C8 on the sample questionnaire body. -/
theorem C8_witness :
    (extract_structure_compact bodyEl).compact_text
        = (extract_structure_compact bodyEl).compact_text
    ∧ (extract_structure_compact bodyEl).id_to_xpath
        = (extract_structure_compact bodyEl).id_to_xpath
    ∧ (extract_structure_compact bodyEl).complex_elements
        = (extract_structure_compact bodyEl).complex_elements :=
  C8_index_deterministic bodyEl bodyEl rfl

/-- C4 counterexample.  The claim predicts MATCHED whenever the
expected text occurs case-insensitively in the actual text; the code
compares with the case-sensitive Python in operator, so expected
"acme" against actual "Acme Corporation" — a case-insensitive hit —
is reported MISMATCHED.  (The PDF and Excel verifiers lower both
sides; the Word verifier checked here does not.) -/
theorem C4_counterexample :
    strContains (pyLower (verifier_text (pEl "Acme Corporation"))) (pyLower "acme")
      = true
    ∧ (verify_one [pEl "Acme Corporation"] "q1" "acme").status
      = ContentStatus.mismatchedC := by
  decide

/-- C4 amended.  Per verification pair: MISSING exactly when the
reference resolved to no element; on a resolving reference, MATCHED
exactly when the expected text is a case-sensitive substring of the
first resolved element's space-joined text, MISMATCHED exactly
otherwise. -/
theorem C4_verify_status (resolved : List Elem) (pid expected : String) :
    ((verify_one resolved pid expected).status = ContentStatus.missingC
      ↔ resolved = [])
    ∧ (∀ m rest, resolved = m :: rest →
        (((verify_one resolved pid expected).status = ContentStatus.matchedC)
          ↔ strContains (verifier_text m) expected = true)
        ∧ (((verify_one resolved pid expected).status = ContentStatus.mismatchedC)
          ↔ strContains (verifier_text m) expected = false)) := by
  cases resolved with
  | nil =>
      refine ⟨by simp [verify_one], ?_⟩
      intro m rest h
      cases h
  | cons m0 rest0 =>
      constructor
      · by_cases hc : strContains (verifier_text m0) expected <;>
          simp [verify_one, hc]
      · intro m rest h
        have hm : m0 = m := by injection h
        subst hm
        by_cases hc : strContains (verifier_text m0) expected <;>
          simp [verify_one, hc]

/-- Witness for C4 amended at a concrete resolved element. -/
theorem C4_witness :
    ((verify_one [pEl "Acme Corporation"] "q" "Acme").status
        = ContentStatus.matchedC
      ↔ strContains (verifier_text (pEl "Acme Corporation")) "Acme" = true)
    ∧ ((verify_one [pEl "Acme Corporation"] "q" "Acme").status
        = ContentStatus.mismatchedC
      ↔ strContains (verifier_text (pEl "Acme Corporation")) "Acme" = false) :=
  (C4_verify_status [pEl "Acme Corporation"] "q" "Acme").2
    (pEl "Acme Corporation") [] rfl

/-- C9.  A locator that fails the positional-grammar check is rejected
by _validate_xpath with an error naming the invalid XPath, before any
resolution or mutation happens, and the whole write call aborts with
that error (never a silent skip). -/
theorem C9_invalid_xpath_rejected (body : Elem) (a : AnswerPayload)
    (rest : List AnswerPayload) (h : xpath_matches_safe a.xpath = false) :
    apply_answer body a =
      .error ("XPath does not match expected pattern: " ++ a.xpath)
    ∧ write_answers body (a :: rest) =
      .error ("XPath does not match expected pattern: " ++ a.xpath) := by
  have hp : parse_xpath a.xpath = none := by
    cases hcase : parse_xpath a.xpath with
    | none => rfl
    | some s => simp [xpath_matches_safe, hcase] at h
  constructor
  · simp [apply_answer, hp]
  · simp only [write_answers, List.foldlM, apply_answer, hp]
    rfl

/-- Witness for C9 with a locator stepping outside the fixed element
vocabulary. -/
theorem C9_witness :
    apply_answer bodyEl
      { pair_id := "q1", xpath := "./w:script", insertion_xml := .ok (rEl "v"),
        answer_text := none, mode := .replaceContentM } =
      .error ("XPath does not match expected pattern: " ++ "./w:script")
    ∧ write_answers bodyEl
      [{ pair_id := "q1", xpath := "./w:script", insertion_xml := .ok (rEl "v"),
         answer_text := none, mode := .replaceContentM }] =
      .error ("XPath does not match expected pattern: " ++ "./w:script") :=
  C9_invalid_xpath_rejected bodyEl
    { pair_id := "q1", xpath := "./w:script", insertion_xml := .ok (rEl "v"),
      answer_text := none, mode := .replaceContentM } [] (by decide)

/-- C7.  Unknown-reference policy divergence: a Word write reaching an
answer whose validated locator resolves to no element aborts the whole
call with a hard error (no output document, the remaining answers
unprocessed), wherever that answer sits in the batch; a PDF write
whose field ID is not in the widget index skips that answer and
produces exactly what writing the remaining answers would produce. -/
theorem C7_unknown_reference_policy :
    (∀ (body mid : Elem) (pre : List AnswerPayload) (a : AnswerPayload)
        (steps : List XStep) (rest : List AnswerPayload),
      write_answers body pre = .ok mid →
      parse_xpath a.xpath = some steps → resolveSteps mid steps = [] →
      write_answers body (pre ++ a :: rest) =
        .error ("XPath " ++ a.xpath ++ " for pair_id " ++ a.pair_id
          ++ " did not match any element in the document"))
    ∧ (∀ (pages : List (List PdfWidget)) (fid v : String)
        (rest : List (String × String)),
      lookupA (build_field_index pages) fid = none →
      pdf_write_answers pages ((fid, v) :: rest) = pdf_write_answers pages rest) := by
  constructor
  · intro body mid pre a steps rest hpre hp hr
    rw [write_answers, List.foldlM_append]
    rw [show List.foldlM apply_answer body pre = write_answers body pre from rfl,
      hpre]
    show List.foldlM apply_answer mid (a :: rest) = _
    rw [List.foldlM_cons]
    simp only [apply_answer, hp, hr]
    rfl
  · intro pages fid v rest hl
    simp [pdf_write_answers, List.foldl, hl]

/-- Witness for C7: a table-cell locator against a body with no table,
and a second field ID against a one-widget PDF. -/
theorem C7_witness :
    write_answers (Elem.mk "w:body" [] none (.cons (pEl "hi") .nil) none)
      (([] : List AnswerPayload)
        ++ [{ pair_id := "q1", xpath := "./w:tbl/w:tr/w:tc",
              insertion_xml := .ok (rEl "v"), answer_text := none,
              mode := .replaceContentM }]) =
      .error ("XPath " ++ "./w:tbl/w:tr/w:tc" ++ " for pair_id " ++ "q1"
        ++ " did not match any element in the document")
    ∧ pdf_write_answers [[{ ftype := .textField, value := .inl "" }]]
        [("F2", "hello")] =
      pdf_write_answers [[{ ftype := .textField, value := .inl "" }]] [] :=
  ⟨C7_unknown_reference_policy.1
      (Elem.mk "w:body" [] none (.cons (pEl "hi") .nil) none)
      (Elem.mk "w:body" [] none (.cons (pEl "hi") .nil) none) []
      { pair_id := "q1", xpath := "./w:tbl/w:tr/w:tc",
        insertion_xml := .ok (rEl "v"), answer_text := none,
        mode := .replaceContentM }
      [⟨"tbl", none⟩, ⟨"tr", none⟩, ⟨"tc", none⟩] [] rfl (by decide) (by decide),
   C7_unknown_reference_policy.2 [[{ ftype := .textField, value := .inl "" }]]
      "F2" "hello" [] (by decide)⟩

/-- C6.  The claim asserts snippet resolution is total: unparsable
snippets yield NOT_FOUND and no exception escapes.  The source
contradicts it: parse_snippet catches only XMLSyntaxError, so a
snippet whose direct parse fails but whose namespace-wrapped parse
succeeds with no element children (plain text such as "hello", or the
empty string) reaches wrapper_elem[0] and raises an uncaught
IndexError that propagates out of find_snippet_in_body and
_validate_snippet — against the function's own docstring and the
spec.  For the outcomes that do return, the claimed classification
holds: a parse returning None yields NOT_FOUND, zero structural
matches yield NOT_FOUND, exactly one match yields MATCHED carrying
that match's locator, and two or more matches yield AMBIGUOUS — never
MATCHED — with the reported count equal to the number of matches. -/
theorem C6_snippet_resolution (pid : String) (body : Elem) (sn : SnippetStr) :
    (sn = .elementLess →
        find_snippet_in_body body sn = .error "IndexError: list index out of range"
        ∧ validate_snippet pid body sn
            = .error "IndexError: list index out of range")
    ∧ (sn = .malformed →
        find_snippet_in_body body sn = .ok []
        ∧ validate_snippet pid body sn = .ok
            { pair_id := pid, status := .notFound, xpath := none, context := none })
    ∧ (find_snippet_in_body body sn = .ok [] →
        ∃ v, validate_snippet pid body sn = .ok v ∧ v.status = .notFound)
    ∧ (∀ x, find_snippet_in_body body sn = .ok [x] →
        ∃ v, validate_snippet pid body sn = .ok v
          ∧ v.status = .matched ∧ v.xpath = some x)
    ∧ (∀ xs, find_snippet_in_body body sn = .ok xs → 2 ≤ xs.length →
        ∃ v, validate_snippet pid body sn = .ok v
          ∧ v.status = .ambiguous
          ∧ v.context = some ("Snippet matched "
              ++ Nat.repr xs.length ++ " locations")) := by
  refine ⟨?_, ?_, ?_, ?_, ?_⟩
  · rintro rfl
    exact ⟨rfl, rfl⟩
  · rintro rfl
    exact ⟨rfl, rfl⟩
  · intro hnil
    cases sn with
    | elementLess => simp [find_snippet_in_body, parse_snippet_str] at hnil
    | malformed =>
        exact ⟨{ pair_id := pid, status := .notFound, xpath := none,
                 context := none }, rfl, rfl⟩
    | wellFormed se =>
        have hfind : find_snippet_in_body body (.wellFormed se) =
            .ok (((taggedPathsE se.tag body []).filter (fun pe => structEq pe.2 se)).map
              (fun pe => build_xpath_from body pe.1)) := rfl
        rw [hfind] at hnil
        have hnil2 := Except.ok.inj hnil
        rw [List.map_eq_nil_iff] at hnil2
        refine ⟨{ pair_id := pid, status := .notFound, xpath := none,
                  context := none }, ?_, rfl⟩
        simp [validate_snippet, parse_snippet_str, hnil2]
  · intro x hx
    cases sn with
    | elementLess => simp [find_snippet_in_body, parse_snippet_str] at hx
    | malformed => simp [find_snippet_in_body, parse_snippet_str] at hx
    | wellFormed se =>
        have hfind : find_snippet_in_body body (.wellFormed se) =
            .ok (((taggedPathsE se.tag body []).filter (fun pe => structEq pe.2 se)).map
              (fun pe => build_xpath_from body pe.1)) := rfl
        rw [hfind] at hx
        have hx2 := Except.ok.inj hx
        rcases hone : (taggedPathsE se.tag body []).filter
            (fun pe => structEq pe.2 se) with _ | ⟨pe, t⟩
        · rw [hone] at hx2
          simp at hx2
        · rcases t with _ | ⟨pe2, t2⟩
          · rw [hone] at hx2
            simp at hx2
            refine ⟨{ pair_id := pid, status := .matched,
                      xpath := some (build_xpath_from body pe.1),
                      context := some (get_context_text pe.2) }, ?_, rfl, ?_⟩
            · simp [validate_snippet, parse_snippet_str, hone]
            · simp [hx2]
          · rw [hone] at hx2
            simp at hx2
  · intro xs hxs hlen
    cases sn with
    | elementLess => simp [find_snippet_in_body, parse_snippet_str] at hxs
    | malformed =>
        have h0 : ([] : List String) = xs := Except.ok.inj hxs
        rw [← h0] at hlen
        simp at hlen
    | wellFormed se =>
        have hfind : find_snippet_in_body body (.wellFormed se) =
            .ok (((taggedPathsE se.tag body []).filter (fun pe => structEq pe.2 se)).map
              (fun pe => build_xpath_from body pe.1)) := rfl
        rw [hfind] at hxs
        have hx2 := Except.ok.inj hxs
        rcases hone : (taggedPathsE se.tag body []).filter
            (fun pe => structEq pe.2 se) with _ | ⟨pe, t⟩
        · rw [hone] at hx2
          rw [← hx2] at hlen
          simp at hlen
        · rcases t with _ | ⟨pe2, t2⟩
          · rw [hone] at hx2
            rw [← hx2] at hlen
            simp at hlen
          · refine ⟨{ pair_id := pid, status := .ambiguous, xpath := none,
                      context := some ("Snippet matched "
                        ++ Nat.repr ((taggedPathsE se.tag body []).filter
                            (fun pe => structEq pe.2 se)).length
                        ++ " locations") }, ?_, rfl, ?_⟩
            · simp [validate_snippet, parse_snippet_str, hone]
            · rw [← hx2, List.length_map]

/-- Sample body with two different rows whose second cell is the same
empty cell markup. -/
def twoEmptyBody : Elem :=
  .mk "w:body" [] none
    (.cons (.mk "w:tbl" [] none
      (.cons (trEl "Name?" "") (.cons (trEl "Date?" "") .nil)) none) .nil) none

/-- Witness for C6: the plain-text snippet outcome — a string whose
wrapped parse yields an element-less document — makes both the search
and the validator raise the uncaught IndexError instead of reporting
NOT_FOUND. -/
theorem C6_witness :
    find_snippet_in_body twoEmptyBody .elementLess
      = .error "IndexError: list index out of range"
    ∧ validate_snippet "p1" twoEmptyBody .elementLess
      = .error "IndexError: list index out of range" :=
  (C6_snippet_resolution "p1" twoEmptyBody .elementLess).1 rfl

/-- C5 counterexample.  A single text leaf holding two placeholder
occurrences: the source substitutes every occurrence of the matched
pattern in that leaf (re.sub with no count), so the later occurrence in
the same leaf is replaced too, contradicting the claim that only the
first matched span is substituted. -/
theorem C5_counterexample :
    replace_placeholder (pEl "A [Enter x] B [Enter y]") (.ok (rEl "Z")) none
      = .ok (pEl "A Z B Z")
    ∧ get_text (pEl "A Z B Z") = "A Z B Z" :=
  ⟨by rfl, by decide⟩

mutual
/-- The texts of all w:t elements under an element (self included), in
document order — the data _replace_placeholder scans. -/
def wtTextsE : Elem → List (Option String)
  | .mk tg _ x cs _ => (if tg == "w:t" then [x] else []) ++ wtTextsL cs
def wtTextsL : ElemList → List (Option String)
  | .nil => []
  | .cons e es => wtTextsE e ++ wtTextsL es
end

/-- Per-leaf effect of the placeholder scan (absent texts are skipped). -/
def leafHit (ph : Option String) (nt : String) : Option String → Option String
  | some xt => tryLeaf ph nt xt
  | none => none

/-- Replace the first entry of the list on which f fires, leaving every
other entry unchanged. -/
def applyFirst (f : Option String → Option String) :
    List (Option String) → List (Option String)
  | [] => []
  | x :: xs =>
      match f x with
      | some y => some y :: xs
      | none => x :: applyFirst f xs

theorem applyFirst_all_none (f : Option String → Option String)
    (l : List (Option String)) (h : ∀ x ∈ l, f x = none) :
    applyFirst f l = l := by
  induction l with
  | nil => rfl
  | cons x xs ih =>
      have hx := h x (by simp)
      simp [applyFirst, hx]
      exact ih (fun y hy => h y (by simp [hy]))

theorem applyFirst_append_none (f : Option String → Option String)
    (a b : List (Option String)) (h : ∀ x ∈ a, f x = none) :
    applyFirst f (a ++ b) = a ++ applyFirst f b := by
  induction a with
  | nil => rfl
  | cons x xs ih =>
      have hx := h x (by simp)
      simp [applyFirst, hx]
      exact ih (fun y hy => h y (by simp [hy]))

theorem applyFirst_append_hit (f : Option String → Option String)
    (a b : List (Option String)) (h : ∃ x ∈ a, (f x).isSome) :
    applyFirst f (a ++ b) = applyFirst f a ++ b := by
  induction a with
  | nil =>
      rcases h with ⟨x, hx, _⟩
      simp at hx
  | cons x xs ih =>
      cases hfx : f x with
      | some y => simp [applyFirst, hfx]
      | none =>
          rcases h with ⟨z, hz, hzs⟩
          rcases List.mem_cons.mp hz with hzx | hzxs
          · subst hzx
            rw [hfx] at hzs
            simp at hzs
          · simp [applyFirst, hfx]
            exact ih ⟨z, hzxs, hzs⟩

mutual
/-- The replace-placeholder walk, characterized over the flattened
leaf-text list: when nothing fired the tree is unchanged and no leaf
matches; when a substitution happened, the leaf texts of the result are
those of the input with exactly the first firing entry rewritten. -/
theorem rpWalkE_spec (ph : Option String) (nt : String) (e : Elem) :
    ((rpWalkE ph nt e).2 = false →
      (rpWalkE ph nt e).1 = e ∧ ∀ x ∈ wtTextsE e, leafHit ph nt x = none)
    ∧ ((rpWalkE ph nt e).2 = true →
      wtTextsE (rpWalkE ph nt e).1 = applyFirst (leafHit ph nt) (wtTextsE e)
      ∧ ∃ x ∈ wtTextsE e, (leafHit ph nt x).isSome) := by
  cases e with
  | mk tg a x cs tl =>
      have hl := rpWalkL_spec ph nt cs
      by_cases htg : (tg == "w:t") = true
      · cases x with
        | some xt =>
            cases htry : tryLeaf ph nt xt with
            | some newT =>
                have hrw : rpWalkE ph nt (Elem.mk tg a (some xt) cs tl)
                    = (Elem.mk tg a (some newT) cs tl, true) := by
                  simp [rpWalkE, htg, htry]
                rw [hrw]
                refine ⟨fun hf => by simp at hf, fun _ => ⟨?_, ?_⟩⟩
                · simp [wtTextsE, htg, applyFirst, leafHit, htry]
                · exact ⟨some xt, by simp [wtTextsE, htg],
                    by simp [leafHit, htry]⟩
            | none =>
                have hrw : rpWalkE ph nt (Elem.mk tg a (some xt) cs tl)
                    = (Elem.mk tg a (some xt) (rpWalkL ph nt cs).1 tl,
                       (rpWalkL ph nt cs).2) := by
                  simp [rpWalkE, htg, htry]
                rw [hrw]
                constructor
                · intro hf
                  rcases hl.1 (by simpa using hf) with ⟨heq, hnone⟩
                  refine ⟨by simp [heq], ?_⟩
                  intro y hy
                  rcases (by simpa [wtTextsE, htg] using hy :
                      y = some xt ∨ y ∈ wtTextsL cs) with hy1 | hy2
                  · subst hy1
                    simp [leafHit, htry]
                  · exact hnone y hy2
                · intro hf
                  rcases hl.2 (by simpa using hf) with ⟨heq, z, hz, hzs⟩
                  constructor
                  · have hx1 : wtTextsE (Elem.mk tg a (some xt)
                        (rpWalkL ph nt cs).1 tl)
                        = [some xt] ++ wtTextsL (rpWalkL ph nt cs).1 := by
                      simp [wtTextsE, htg]
                    have hx2 : wtTextsE (Elem.mk tg a (some xt) cs tl)
                        = [some xt] ++ wtTextsL cs := by
                      simp [wtTextsE, htg]
                    rw [hx1, hx2, heq, applyFirst_append_none]
                    intro y hy
                    have : y = some xt := by simpa using hy
                    subst this
                    simp [leafHit, htry]
                  · exact ⟨z, by simp [wtTextsE, htg, hz], hzs⟩
        | none =>
            have hrw : rpWalkE ph nt (Elem.mk tg a none cs tl)
                = (Elem.mk tg a none (rpWalkL ph nt cs).1 tl,
                   (rpWalkL ph nt cs).2) := by
              simp [rpWalkE, htg]
            rw [hrw]
            constructor
            · intro hf
              rcases hl.1 (by simpa using hf) with ⟨heq, hnone⟩
              refine ⟨by simp [heq], ?_⟩
              intro y hy
              rcases (by simpa [wtTextsE, htg] using hy :
                  y = none ∨ y ∈ wtTextsL cs) with hy1 | hy2
              · subst hy1
                simp [leafHit]
              · exact hnone y hy2
            · intro hf
              rcases hl.2 (by simpa using hf) with ⟨heq, z, hz, hzs⟩
              constructor
              · have hx1 : wtTextsE (Elem.mk tg a none (rpWalkL ph nt cs).1 tl)
                    = [none] ++ wtTextsL (rpWalkL ph nt cs).1 := by
                  simp [wtTextsE, htg]
                have hx2 : wtTextsE (Elem.mk tg a none cs tl)
                    = [none] ++ wtTextsL cs := by
                  simp [wtTextsE, htg]
                rw [hx1, hx2, heq, applyFirst_append_none]
                intro y hy
                have : y = none := by simpa using hy
                subst this
                simp [leafHit]
              · exact ⟨z, by simp [wtTextsE, htg, hz], hzs⟩
      · have htg2 : (tg == "w:t") = false := by simpa using htg
        have hrw : rpWalkE ph nt (Elem.mk tg a x cs tl)
            = (Elem.mk tg a x (rpWalkL ph nt cs).1 tl,
               (rpWalkL ph nt cs).2) := by
          simp [rpWalkE, htg2]
        rw [hrw]
        constructor
        · intro hf
          rcases hl.1 (by simpa using hf) with ⟨heq, hnone⟩
          refine ⟨by simp [heq], ?_⟩
          intro y hy
          exact hnone y (by simpa [wtTextsE, htg2] using hy)
        · intro hf
          rcases hl.2 (by simpa using hf) with ⟨heq, z, hz, hzs⟩
          constructor
          · have hx1 : wtTextsE (Elem.mk tg a x (rpWalkL ph nt cs).1 tl)
                = wtTextsL (rpWalkL ph nt cs).1 := by
              simp [wtTextsE, htg2]
            have hx2 : wtTextsE (Elem.mk tg a x cs tl) = wtTextsL cs := by
              simp [wtTextsE, htg2]
            rw [hx1, hx2, heq]
          · exact ⟨z, by simpa [wtTextsE, htg2] using hz, hzs⟩
theorem rpWalkL_spec (ph : Option String) (nt : String) (l : ElemList) :
    ((rpWalkL ph nt l).2 = false →
      (rpWalkL ph nt l).1 = l ∧ ∀ x ∈ wtTextsL l, leafHit ph nt x = none)
    ∧ ((rpWalkL ph nt l).2 = true →
      wtTextsL (rpWalkL ph nt l).1 = applyFirst (leafHit ph nt) (wtTextsL l)
      ∧ ∃ x ∈ wtTextsL l, (leafHit ph nt x).isSome) := by
  cases l with
  | nil =>
      refine ⟨fun _ => ⟨rfl, by simp [wtTextsL]⟩, fun hf => ?_⟩
      simp [rpWalkL] at hf
  | cons e es =>
      have he := rpWalkE_spec ph nt e
      have hes := rpWalkL_spec ph nt es
      cases hfe : (rpWalkE ph nt e).2 with
      | true =>
          rcases he.2 hfe with ⟨heq, z, hz, hzs⟩
          have hrw : rpWalkL ph nt (.cons e es)
              = (.cons (rpWalkE ph nt e).1 es, true) := by
            simp [rpWalkL, hfe]
          rw [hrw]
          refine ⟨fun hf => by simp at hf, fun _ => ⟨?_, ?_⟩⟩
          · have hx1 : wtTextsL (ElemList.cons (rpWalkE ph nt e).1 es)
                = wtTextsE (rpWalkE ph nt e).1 ++ wtTextsL es := rfl
            have hx2 : wtTextsL (ElemList.cons e es)
                = wtTextsE e ++ wtTextsL es := rfl
            rw [hx1, hx2, heq, applyFirst_append_hit]
            exact ⟨z, hz, hzs⟩
          · exact ⟨z, by simp [wtTextsL, hz], hzs⟩
      | false =>
          rcases he.1 hfe with ⟨heq, hnone⟩
          cases hfes : (rpWalkL ph nt es).2 with
          | false =>
              rcases hes.1 hfes with ⟨heq2, hnone2⟩
              have hrw : rpWalkL ph nt (.cons e es)
                  = (.cons (rpWalkE ph nt e).1 (rpWalkL ph nt es).1, false) := by
                simp [rpWalkL, hfe, hfes]
              rw [hrw]
              refine ⟨fun _ => ⟨by simp [heq, heq2], ?_⟩, fun hf => by simp at hf⟩
              intro y hy
              rcases (by simpa [wtTextsL] using hy :
                  y ∈ wtTextsE e ∨ y ∈ wtTextsL es) with hy1 | hy2
              · exact hnone y hy1
              · exact hnone2 y hy2
          | true =>
              rcases hes.2 hfes with ⟨heq2, z, hz, hzs⟩
              have hrw : rpWalkL ph nt (.cons e es)
                  = (.cons (rpWalkE ph nt e).1 (rpWalkL ph nt es).1, true) := by
                simp [rpWalkL, hfe, hfes]
              rw [hrw]
              refine ⟨fun hf => by simp at hf, fun _ => ⟨?_, ?_⟩⟩
              · have hx1 : wtTextsL (ElemList.cons (rpWalkE ph nt e).1
                    (rpWalkL ph nt es).1)
                    = wtTextsE (rpWalkE ph nt e).1 ++ wtTextsL (rpWalkL ph nt es).1 :=
                  rfl
                have hx2 : wtTextsL (ElemList.cons e es)
                    = wtTextsE e ++ wtTextsL es := rfl
                rw [hx1, hx2, heq, heq2, applyFirst_append_none _ _ _ hnone]
              · exact ⟨z, by simp [wtTextsL, hz], hzs⟩
end

/-- Whether one entry of the leaf-text list (an optional w:t text)
makes the loop reach its substitution call: absent texts are skipped. -/
def entryFires (ph : Option String) : Option String → Bool
  | some xt => leafFires ph xt
  | none => false

mutual
/-- The crash test firesE is exactly: some entry of the flattened
leaf-text list fires. -/
theorem firesE_eq_any (ph : Option String) (e : Elem) :
    firesE ph e = (wtTextsE e).any (entryFires ph) := by
  cases e with
  | mk tg a x cs tl =>
      have ih := firesL_eq_any ph cs
      by_cases htg : (tg == "w:t") = true
      · cases x with
        | some xt => simp [firesE, wtTextsE, htg, entryFires, ih, List.any_append]
        | none => simp [firesE, wtTextsE, htg, entryFires, ih, List.any_append]
      · have htg2 : (tg == "w:t") = false := by simpa using htg
        simp [firesE, wtTextsE, htg2, ih]
theorem firesL_eq_any (ph : Option String) (l : ElemList) :
    firesL ph l = (wtTextsL l).any (entryFires ph) := by
  cases l with
  | nil => rfl
  | cons e es =>
      simp [firesL, wtTextsL, firesE_eq_any ph e, firesL_eq_any ph es,
        List.any_append]
end

/-- C5 amended.  A replace_placeholder call touches at most one text
leaf.  When the insertion parses and its first descendant w:t carries
text nt, the call succeeds and the result's leaf texts are those of
the target with exactly the first firing entry rewritten — every
occurrence of the matched pattern in that entry substituted (the
effect of tryLeaf), every other leaf unchanged.  When that w:t carries
no text (Python None), the call raises TypeError as soon as some leaf
fires, rewriting nothing, and is a silent no-op otherwise. -/
theorem C5_first_leaf_only (target ne : Elem) (ins : Snippet)
    (ph : Option String) (h : parse_snippet ins = some ne) :
    (∀ nt, insertion_new_text ne = some nt →
      ∃ out, replace_placeholder target ins ph = .ok out ∧
        wtTextsE out = applyFirst (leafHit ph nt) (wtTextsE target))
    ∧ (insertion_new_text ne = none →
        ((wtTextsE target).any (entryFires ph) = true →
          replace_placeholder target ins ph =
            .error "TypeError: replace() argument 2 must be str, not None")
        ∧ ((wtTextsE target).any (entryFires ph) = false →
          replace_placeholder target ins ph = .ok target)) := by
  cases ins with
  | bad => simp [parse_snippet] at h
  | ok e =>
      have he : ne = e := by simpa [parse_snippet] using h.symm
      subst he
      constructor
      · intro nt hnt
        refine ⟨(rpWalkE ph nt target).1, ?_, ?_⟩
        · simp [replace_placeholder, parse_snippet, hnt]
        · have hs := rpWalkE_spec ph nt target
          cases hf : (rpWalkE ph nt target).2 with
          | true => exact (hs.2 hf).1
          | false =>
              rcases hs.1 hf with ⟨heq, hnone⟩
              rw [heq, applyFirst_all_none _ _ hnone]
      · intro hnone
        have hfr := firesE_eq_any ph target
        constructor
        · intro hany
          rw [← hfr] at hany
          simp [replace_placeholder, parse_snippet, hnone, hany]
        · intro hany
          rw [← hfr] at hany
          simp [replace_placeholder, parse_snippet, hnone, hany]

/-- Witness for C5 amended on the basic placeholder scenario. -/
theorem C5_witness :
    ∃ out, replace_placeholder (pEl "Date: [Enter date]")
        (.ok (rEl "2026-02-11")) none = .ok out ∧
      wtTextsE out = applyFirst (leafHit none "2026-02-11")
        (wtTextsE (pEl "Date: [Enter date]")) :=
  (C5_first_leaf_only (pEl "Date: [Enter date]") (rEl "2026-02-11")
    (.ok (rEl "2026-02-11")) none rfl).1 "2026-02-11" rfl

/-- Local well-formedness of a w:tc child list: no direct w:r child and
at least one direct w:p child (the two patterns the structural checker
reports). -/
def tcOk (cs : ElemList) : Bool :=
  !cs.anyTag "w:r" && cs.anyTag "w:p"

def localOk (tg : String) (cs : ElemList) : Bool :=
  if tg == "w:tc" then tcOk cs else true

mutual
/-- Structural cleanliness of a whole subtree: every w:tc anywhere in
it satisfies tcOk. -/
def cleanE : Elem → Bool
  | .mk tg _ _ cs _ => localOk tg cs && cleanL cs
def cleanL : ElemList → Bool
  | .nil => true
  | .cons e es => cleanE e && cleanL es
end

theorem anyTag_toL (l : ElemList) (t : String) :
    l.anyTag t = l.toL.any (fun c => c.tag == t) := by
  cases l with
  | nil => rfl
  | cons x xs => simp [ElemList.anyTag, ElemList.toL, anyTag_toL xs t]

theorem any_false_of_filter_nil (l : List Elem) (p : Elem → Bool)
    (h : l.filter p = []) : l.any p = false := by
  simp only [List.filter_eq_nil_iff] at h
  simp only [List.any_eq_false]
  intro c hc
  simpa using h c hc

theorem any_true_of_filter_cons (l : List Elem) (p : Elem → Bool)
    (a : Elem) (as : List Elem) (h : l.filter p = a :: as) :
    l.any p = true := by
  have ha : a ∈ l.filter p := by rw [h]; simp
  rcases List.mem_filter.mp ha with ⟨hal, hap⟩
  exact List.any_eq_true.mpr ⟨a, hal, hap⟩

/-- One cell contributes no issue exactly when it is locally clean. -/
theorem tcIssues_empty_iff (tc : Elem) :
    tcIssues tc = [] ↔ tcOk tc.children = true := by
  unfold tcIssues tcOk
  rw [anyTag_toL, anyTag_toL]
  rcases hfr : tc.children.toL.filter (fun c => c.tag == "w:r") with _ | ⟨a, as⟩ <;>
    rcases hfp : tc.children.toL.filter (fun c => c.tag == "w:p") with _ | ⟨b, bs⟩
  · rw [hfr, hfp, any_false_of_filter_nil _ _ hfr, any_false_of_filter_nil _ _ hfp]
    simp
  · rw [hfr, hfp, any_false_of_filter_nil _ _ hfr,
      any_true_of_filter_cons _ _ _ _ hfp]
    simp
  · rw [hfr, hfp, any_true_of_filter_cons _ _ _ _ hfr,
      any_false_of_filter_nil _ _ hfp]
    simp
  · rw [hfr, hfp, any_true_of_filter_cons _ _ _ _ hfr,
      any_true_of_filter_cons _ _ _ _ hfp]
    simp

mutual
/-- Cleanliness is exactly local well-formedness of every w:tc in the
subtree (the set the checker iterates). -/
theorem cleanE_eq_all (e : Elem) :
    cleanE e = (iterTagE "w:tc" e).all (fun tc => tcOk tc.children) := by
  cases e with
  | mk tg a x cs tl =>
      have ih := cleanL_eq_all cs
      by_cases h : (tg == "w:tc") = true
      · have htg : tg = "w:tc" := by simpa using h
        subst htg
        simp [cleanE, iterTagE, localOk, List.all_append, ih, Elem.children]
      · have h2 : (tg == "w:tc") = false := by simpa using h
        simp [cleanE, iterTagE, localOk, h2, List.all_append, ih]
theorem cleanL_eq_all (l : ElemList) :
    cleanL l = (iterTagL "w:tc" l).all (fun tc => tcOk tc.children) := by
  cases l with
  | nil => rfl
  | cons e es =>
      simp [cleanL, iterTagL, List.all_append, cleanE_eq_all e, cleanL_eq_all es]
end

/-- The checker reports nothing exactly when the tree is clean. -/
theorem check_empty_iff_clean (body : Elem) :
    check_structural_issues body = [] ↔ cleanE body = true := by
  rw [check_structural_issues, cleanE_eq_all body, List.flatMap_eq_nil_iff,
    List.all_eq_true]
  constructor
  · intro h x hx
    exact (tcIssues_empty_iff x).mp (h x hx)
  · intro h x hx
    exact (tcIssues_empty_iff x).mpr (h x hx)

theorem cleanL_nth (l : ElemList) (i : Nat) (c : Elem)
    (hc : cleanL l = true) (hn : l.nth i = some c) : cleanE c = true := by
  cases l with
  | nil => simp [ElemList.nth] at hn
  | cons x xs =>
      have hx : cleanE x = true ∧ cleanL xs = true := by
        simpa [cleanL, Bool.and_eq_true] using hc
      cases i with
      | zero =>
          have : x = c := by simpa [ElemList.nth] using hn
          subst this
          exact hx.1
      | succ n => exact cleanL_nth xs n c hx.2 (by simpa [ElemList.nth] using hn)

theorem clean_getAt (p : List Nat) (e t : Elem)
    (hc : cleanE e = true) (hg : e.getAt p = some t) : cleanE t = true := by
  cases p with
  | nil =>
      have : e = t := by simpa [Elem.getAt] using hg
      subst this
      exact hc
  | cons i p =>
      cases hn : e.children.nth i with
      | none => simp [Elem.getAt, hn] at hg
      | some c =>
          have hcl : cleanL e.children = true := by
            cases e with
            | mk tg a x cs tl =>
                simpa [cleanE, Bool.and_eq_true, Elem.children] using
                  (by simpa [cleanE, Bool.and_eq_true] using hc : _ ∧ cleanL cs = true).2
          have hcc : cleanE c = true := cleanL_nth e.children i c hcl hn
          exact clean_getAt p c t hcc (by simpa [Elem.getAt, hn] using hg)

theorem getAt_append_one (p : List Nat) (e cur c : Elem) (i : Nat)
    (hg : e.getAt p = some cur) (hn : cur.children.nth i = some c) :
    e.getAt (p ++ [i]) = some c := by
  cases p with
  | nil =>
      have : e = cur := by simpa [Elem.getAt] using hg
      subst this
      simp [Elem.getAt, hn]
  | cons j p =>
      cases hnj : e.children.nth j with
      | none => simp [Elem.getAt, hnj] at hg
      | some d =>
          have hg2 : d.getAt p = some cur := by simpa [Elem.getAt, hnj] using hg
          have := getAt_append_one p d cur c i hg2 hn
          simpa [Elem.getAt, hnj] using this

theorem cleanL_setNth (l : ElemList) (i : Nat) (x c : Elem)
    (hc : cleanL l = true) (hn : l.nth i = some c) (hx : cleanE x = true) :
    cleanL (l.setNth i x) = true := by
  cases l with
  | nil => simp [ElemList.nth] at hn
  | cons y ys =>
      have hy : cleanE y = true ∧ cleanL ys = true := by
        simpa [cleanL, Bool.and_eq_true] using hc
      cases i with
      | zero => simp [ElemList.setNth, cleanL, hx, hy.2]
      | succ n =>
          have := cleanL_setNth ys n x c hy.2
            (by simpa [ElemList.nth] using hn) hx
          simp [ElemList.setNth, cleanL, hy.1, this]

theorem anyTag_setNth (l : ElemList) (i : Nat) (x c : Elem) (t : String)
    (hn : l.nth i = some c) (ht : x.tag = c.tag) :
    (l.setNth i x).anyTag t = l.anyTag t := by
  cases l with
  | nil => simp [ElemList.setNth]
  | cons y ys =>
      cases i with
      | zero =>
          have : y = c := by simpa [ElemList.nth] using hn
          subst this
          simp [ElemList.setNth, ElemList.anyTag, ht]
      | succ n =>
          have := anyTag_setNth ys n x c t (by simpa [ElemList.nth] using hn) ht
          simp [ElemList.setNth, ElemList.anyTag, this]

theorem modifyAt_tag (p : List Nat) (e t : Elem) (f : Elem → Elem)
    (hg : e.getAt p = some t) (hf : (f t).tag = t.tag) :
    (e.modifyAt p f).tag = e.tag := by
  cases p with
  | nil =>
      have : e = t := by simpa [Elem.getAt] using hg
      subst this
      simpa [Elem.modifyAt] using hf
  | cons i p =>
      cases e with
      | mk tg a x cs tl =>
          cases hn : cs.nth i with
          | none => simp [Elem.modifyAt, hn, Elem.tag]
          | some c => simp [Elem.modifyAt, hn, Elem.tag]

theorem clean_modifyAt (p : List Nat) (e t : Elem) (f : Elem → Elem)
    (hc : cleanE e = true) (hg : e.getAt p = some t)
    (hf : (f t).tag = t.tag) (hfc : cleanE (f t) = true) :
    cleanE (e.modifyAt p f) = true := by
  cases p with
  | nil =>
      have : e = t := by simpa [Elem.getAt] using hg
      subst this
      simpa [Elem.modifyAt] using hfc
  | cons i p =>
      cases e with
      | mk tg a x cs tl =>
          cases hn : cs.nth i with
          | none => simpa [Elem.modifyAt, hn] using hc
          | some c =>
              have hg2 : c.getAt p = some t := by
                simpa [Elem.getAt, Elem.children, hn] using hg
              have hcp : localOk tg cs = true ∧ cleanL cs = true := by
                simpa [cleanE, Bool.and_eq_true] using hc
              have hcc : cleanE c = true := cleanL_nth cs i c hcp.2 hn
              have hrec : cleanE (c.modifyAt p f) = true :=
                clean_modifyAt p c t f hcc hg2 hf hfc
              have htag : (c.modifyAt p f).tag = c.tag :=
                modifyAt_tag p c t f hg2 hf
              have hany : ∀ s, (cs.setNth i (c.modifyAt p f)).anyTag s = cs.anyTag s :=
                fun s => anyTag_setNth cs i (c.modifyAt p f) c s hn htag
              have hloc : localOk tg (cs.setNth i (c.modifyAt p f)) = true := by
                unfold localOk tcOk at hcp ⊢
                by_cases h : (tg == "w:tc") = true
                · simpa [h, hany] using hcp.1
                · simp [(by simpa using h : (tg == "w:tc") = false)]
              have hcl : cleanL (cs.setNth i (c.modifyAt p f)) = true :=
                cleanL_setNth cs i (c.modifyAt p f) c hcp.2 hn hrec
              simp [Elem.modifyAt, hn, cleanE, hloc, hcl]

theorem idxWithTag_nth (l : ElemList) (t : String) (k i : Nat) (c : Elem)
    (h : (i, c) ∈ l.idxWithTag t k) : ∃ j, i = k + j ∧ l.nth j = some c := by
  cases l with
  | nil => simp [ElemList.idxWithTag] at h
  | cons x xs =>
      by_cases hx : (x.tag == t) = true
      · rcases (by simpa [ElemList.idxWithTag, hx] using h :
            (i = k ∧ c = x) ∨ (i, c) ∈ xs.idxWithTag t (k + 1)) with ⟨hik, hcx⟩ | h2
        · exact ⟨0, by omega, by simp [ElemList.nth, hcx]⟩
        · rcases idxWithTag_nth xs t (k + 1) i c h2 with ⟨j, hij, hnth⟩
          exact ⟨j + 1, by omega, by simpa [ElemList.nth] using hnth⟩
      · have h2 : (i, c) ∈ xs.idxWithTag t (k + 1) := by
          simpa [ElemList.idxWithTag, hx] using h
        rcases idxWithTag_nth xs t (k + 1) i c h2 with ⟨j, hij, hnth⟩
        exact ⟨j + 1, by omega, by simpa [ElemList.nth] using hnth⟩

theorem stepSel_sound (root : Elem) (st : XStep) (r q : List Nat × Elem)
    (hr : root.getAt r.1 = some r.2) (hq : q ∈ stepSel st r) :
    root.getAt q.1 = some q.2 := by
  unfold stepSel at hq
  cases hpos : st.pos with
  | none =>
      simp only [hpos] at hq
      rcases List.mem_map.mp hq with ⟨ic, hic, hqe⟩
      rcases idxWithTag_nth r.2.children ("w:" ++ st.name) 0 ic.1 ic.2
        (by simpa using hic) with ⟨j, hij, hnth⟩
      have hj : ic.1 = j := by omega
      subst hqe
      exact getAt_append_one r.1 root r.2 ic.2 ic.1 hr (by rw [hj]; exact hnth)
  | some k =>
      simp only [hpos] at hq
      by_cases hk : k = 0
      · simp [hk] at hq
      · rw [if_neg hk] at hq
        cases hget : (r.2.children.idxWithTag ("w:" ++ st.name) 0)[k - 1]? with
        | none => simp [hget] at hq
        | some ic =>
            have hqe : q = (r.1 ++ [ic.1], ic.2) := by
              simpa [hget] using hq
            have hic : ic ∈ r.2.children.idxWithTag ("w:" ++ st.name) 0 :=
              List.getElem?_mem hget
            rcases idxWithTag_nth r.2.children ("w:" ++ st.name) 0 ic.1 ic.2
              (by simpa using hic) with ⟨j, hij, hnth⟩
            have hj : ic.1 = j := by omega
            subst hqe
            exact getAt_append_one r.1 root r.2 ic.2 ic.1 hr (by rw [hj]; exact hnth)

theorem resolve_sound_aux (root : Elem) (steps : List XStep)
    (ps : List (List Nat × Elem))
    (hps : ∀ pe ∈ ps, root.getAt pe.1 = some pe.2) :
    ∀ pe ∈ steps.foldl (fun acc st => acc.flatMap (stepSel st)) ps,
      root.getAt pe.1 = some pe.2 := by
  induction steps generalizing ps with
  | nil => simpa using hps
  | cons st rest ih =>
      intro pe hpe
      refine ih (ps.flatMap (stepSel st)) ?_ pe (by simpa [List.foldl] using hpe)
      intro q hq
      rcases List.mem_flatMap.mp hq with ⟨r, hr, hqr⟩
      exact stepSel_sound root st r q (hps r hr) hqr

/-- Every pair returned by XPath resolution is a valid index path to
the element it carries. -/
theorem resolve_sound (root : Elem) (steps : List XStep)
    (pe : List Nat × Elem) (h : pe ∈ resolveSteps root steps) :
    root.getAt pe.1 = some pe.2 := by
  refine resolve_sound_aux root steps [([], root)] ?_ pe h
  intro q hq
  have : q = ([], root) := by simpa using hq
  subst this
  rfl

theorem anyTag_app (a b : ElemList) (t : String) :
    (a.app b).anyTag t = (a.anyTag t || b.anyTag t) := by
  cases a with
  | nil => simp [ElemList.app, ElemList.anyTag]
  | cons x xs =>
      simp [ElemList.app, ElemList.anyTag, anyTag_app xs b t, Bool.or_assoc]

theorem cleanL_app (a b : ElemList) :
    cleanL (a.app b) = (cleanL a && cleanL b) := by
  cases a with
  | nil => simp [ElemList.app, cleanL]
  | cons x xs =>
      simp [ElemList.app, cleanL, cleanL_app xs b, Bool.and_assoc]

theorem keepTags_anyTag_false (l : ElemList) (t : String)
    (h1 : ¬ t = "w:pPr") (h2 : ¬ t = "w:tcPr") :
    (l.keepTags preserveTags).anyTag t = false := by
  cases l with
  | nil => rfl
  | cons x xs =>
      have ih := keepTags_anyTag_false xs t h1 h2
      by_cases h : x.tag ∈ preserveTags
      · have hd : x.tag = "w:pPr" ∨ x.tag = "w:tcPr" := by
          simpa [preserveTags] using h
        have hx : (x.tag == t) = false := by
          rcases hd with h3 | h3
          · rw [h3]
            simp only [beq_eq_false_iff_ne, ne_eq]
            exact fun hh => h1 hh.symm
          · rw [h3]
            simp only [beq_eq_false_iff_ne, ne_eq]
            exact fun hh => h2 hh.symm
        simp [ElemList.keepTags, h, ElemList.anyTag, hx, ih]
      · simpa [ElemList.keepTags, h] using ih

theorem cleanL_keepTags (keep : List String) (l : ElemList)
    (hc : cleanL l = true) : cleanL (l.keepTags keep) = true := by
  cases l with
  | nil => rfl
  | cons x xs =>
      have hx : cleanE x = true ∧ cleanL xs = true := by
        simpa [cleanL, Bool.and_eq_true] using hc
      have ih := cleanL_keepTags keep xs hx.2
      by_cases h : x.tag ∈ keep
      · simp [ElemList.keepTags, h, cleanL, hx.1, ih]
      · simpa [ElemList.keepTags, h] using ih

theorem replace_content_tag (target : Elem) (ins : Snippet) :
    (replace_content target ins).tag = target.tag := by
  cases ins with
  | bad => rfl
  | ok e =>
      by_cases h : (target.tag == "w:tc" && e.tag == "w:r") = true <;>
        simp [replace_content, parse_snippet, h, Elem.tag]

theorem append_content_tag (target : Elem) (ins : Snippet) :
    (append_content target ins).tag = target.tag := by
  cases ins with
  | bad => rfl
  | ok e => simp [append_content, parse_snippet, Elem.tag]

theorem replace_content_clean (target ne : Elem) (ins : Snippet)
    (hc : cleanE target = true) (hp : parse_snippet ins = some ne)
    (hne : cleanE ne = true) (htag : ne.tag = "w:r" ∨ ne.tag = "w:p") :
    cleanE (replace_content target ins) = true := by
  cases ins with
  | bad => simp [parse_snippet] at hp
  | ok e =>
      have he : ne = e := by simpa [parse_snippet] using hp.symm
      subst he
      have hcs : localOk target.tag target.children = true
          ∧ cleanL target.children = true := by
        cases target with
        | mk tg a x cs tl =>
            simpa [cleanE, Bool.and_eq_true, Elem.tag, Elem.children] using hc
      set insElem : Elem :=
        if target.tag == "w:tc" && ne.tag == "w:r"
        then Elem.mk "w:p" [] none (.cons ne .nil) none else ne with hins
      have hshape : replace_content target (.ok ne) =
          Elem.mk target.tag target.attrs none
            ((target.children.keepTags preserveTags).app (.cons insElem .nil))
            target.tail := rfl
      have hinsClean : cleanE insElem = true := by
        rw [hins]
        by_cases hw : (target.tag == "w:tc" && ne.tag == "w:r") = true
        · simp only [hw, if_pos]
          have : localOk "w:p" (.cons ne .nil) = true := by
            simp [localOk]
          simp [cleanE, this, cleanL, hne]
        · simp only [Bool.not_eq_true] at hw
          simp [hw, hne]
      rw [hshape]
      have hkeepClean : cleanL (target.children.keepTags preserveTags) = true :=
        cleanL_keepTags preserveTags target.children hcs.2
      have hclean2 : cleanL ((target.children.keepTags preserveTags).app
          (.cons insElem .nil)) = true := by
        rw [cleanL_app]
        simp [hkeepClean, cleanL, hinsClean]
      have hloc : localOk target.tag
          ((target.children.keepTags preserveTags).app (.cons insElem .nil))
          = true := by
        unfold localOk
        by_cases htc : (target.tag == "w:tc") = true
        · rw [if_pos htc]
          unfold tcOk
          rw [anyTag_app, anyTag_app]
          have hkr := keepTags_anyTag_false target.children "w:r"
            (by decide) (by decide)
          have hinsR : ((ElemList.cons insElem .nil).anyTag "w:r") = false := by
            rw [hins]
            by_cases hw : (target.tag == "w:tc" && ne.tag == "w:r") = true
            · rw [if_pos hw]
              simp [ElemList.anyTag, Elem.tag]
            · rw [if_neg hw]
              have hner : (ne.tag == "w:r") = false := by
                cases hb : (ne.tag == "w:r") with
                | false => rfl
                | true => exact absurd (by simp [htc, hb]) hw
              simp [ElemList.anyTag, hner]
          have hinsP : ((ElemList.cons insElem .nil).anyTag "w:p") = true := by
            rw [hins]
            by_cases hw : (target.tag == "w:tc" && ne.tag == "w:r") = true
            · rw [if_pos hw]
              simp [ElemList.anyTag, Elem.tag]
            · rw [if_neg hw]
              have hner : (ne.tag == "w:r") = false := by
                cases hb : (ne.tag == "w:r") with
                | false => rfl
                | true => exact absurd (by simp [htc, hb]) hw
              have hnep : ne.tag = "w:p" := by
                rcases htag with h3 | h3
                · exact absurd h3 (by simpa using hner)
                · exact h3
              simp [ElemList.anyTag, hnep]
          simp [hkr, hinsR, hinsP]
        · rw [if_neg (by simpa using htc)]
      simp [cleanE, hloc, hclean2]

theorem append_content_clean (target : Elem) (ins : Snippet)
    (hc : cleanE target = true)
    (hcase : parse_snippet ins = none
      ∨ ∃ ne, parse_snippet ins = some ne ∧ cleanE ne = true
          ∧ (ne.tag == "w:r") = false) :
    cleanE (append_content target ins) = true := by
  cases ins with
  | bad => simpa [append_content, parse_snippet] using hc
  | ok e =>
      rcases hcase with hnone | ⟨ne, hne, hclean, hner⟩
      · simp [parse_snippet] at hnone
      · have he : ne = e := by simpa [parse_snippet] using hne.symm
        subst he
        have hcs : localOk target.tag target.children = true
            ∧ cleanL target.children = true := by
          cases target with
          | mk tg a x cs tl =>
              simpa [cleanE, Bool.and_eq_true, Elem.tag, Elem.children] using hc
        have hshape : append_content target (.ok ne) =
            Elem.mk target.tag target.attrs target.text
              (target.children.app (.cons ne .nil)) target.tail := rfl
        rw [hshape]
        have hloc : localOk target.tag (target.children.app (.cons ne .nil))
            = true := by
          unfold localOk at hcs ⊢
          by_cases htc : (target.tag == "w:tc") = true
          · rw [if_pos htc]
            have h0 : tcOk target.children = true := by
              simpa [htc] using hcs.1
            unfold tcOk at h0 ⊢
            rw [anyTag_app, anyTag_app]
            have h1 : target.children.anyTag "w:r" = false ∧
                target.children.anyTag "w:p" = true := by
              simpa [Bool.and_eq_true] using h0
            simp [h1.1, h1.2, ElemList.anyTag, hner]
          · rw [if_neg (by simpa using htc)]
        have hcl : cleanL (target.children.app (.cons ne .nil)) = true := by
          rw [cleanL_app]
          simp [hcs.2, cleanL, hclean]
        simp [cleanE, hloc, hcl]

theorem rpWalkE_tag (ph : Option String) (nt : String) (e : Elem) :
    (rpWalkE ph nt e).1.tag = e.tag := by
  cases e with
  | mk tg a x cs tl =>
      by_cases htg : (tg == "w:t") = true
      · cases x with
        | some xt =>
            cases htry : tryLeaf ph nt xt with
            | some newT => simp [rpWalkE, htg, htry, Elem.tag]
            | none => simp [rpWalkE, htg, htry, Elem.tag]
        | none => simp [rpWalkE, htg, Elem.tag]
      · have htg2 : (tg == "w:t") = false := by simpa using htg
        simp [rpWalkE, htg2, Elem.tag]

theorem rpWalkL_anyTag (ph : Option String) (nt : String) (l : ElemList)
    (t : String) : ((rpWalkL ph nt l).1).anyTag t = l.anyTag t := by
  cases l with
  | nil => rfl
  | cons e es =>
      have ih := rpWalkL_anyTag ph nt es t
      have htag := rpWalkE_tag ph nt e
      cases hf : (rpWalkE ph nt e).2 with
      | true => simp [rpWalkL, hf, ElemList.anyTag, htag]
      | false => simp [rpWalkL, hf, ElemList.anyTag, htag, ih]

mutual
theorem rpWalkE_clean (ph : Option String) (nt : String) (e : Elem)
    (hc : cleanE e = true) : cleanE (rpWalkE ph nt e).1 = true := by
  cases e with
  | mk tg a x cs tl =>
      have hparts : localOk tg cs = true ∧ cleanL cs = true := by
        simpa [cleanE, Bool.and_eq_true] using hc
      have hlrec := rpWalkL_clean ph nt cs hparts.2
      have hlocNew : localOk tg (rpWalkL ph nt cs).1 = true := by
        unfold localOk tcOk at hparts ⊢
        by_cases htc : (tg == "w:tc") = true
        · simpa [htc, rpWalkL_anyTag] using hparts.1
        · simp [(by simpa using htc : (tg == "w:tc") = false)]
      by_cases htg : (tg == "w:t") = true
      · cases x with
        | some xt =>
            cases htry : tryLeaf ph nt xt with
            | some newT =>
                simp [rpWalkE, htg, htry, cleanE, hparts.1, hparts.2]
            | none =>
                simp [rpWalkE, htg, htry, cleanE, hlocNew, hlrec]
        | none => simp [rpWalkE, htg, cleanE, hlocNew, hlrec]
      · have htg2 : (tg == "w:t") = false := by simpa using htg
        simp [rpWalkE, htg2, cleanE, hlocNew, hlrec]
theorem rpWalkL_clean (ph : Option String) (nt : String) (l : ElemList)
    (hc : cleanL l = true) : cleanL (rpWalkL ph nt l).1 = true := by
  cases l with
  | nil => rfl
  | cons e es =>
      have hparts : cleanE e = true ∧ cleanL es = true := by
        simpa [cleanL, Bool.and_eq_true] using hc
      have he := rpWalkE_clean ph nt e hparts.1
      have hes := rpWalkL_clean ph nt es hparts.2
      cases hf : (rpWalkE ph nt e).2 with
      | true => simp [rpWalkL, hf, cleanL, he, hparts.2]
      | false => simp [rpWalkL, hf, cleanL, he, hes]
end

theorem replace_placeholder_ok_tag (target : Elem) (ins : Snippet)
    (ph : Option String) (out : Elem)
    (h : replace_placeholder target ins ph = .ok out) :
    out.tag = target.tag := by
  cases ins with
  | bad =>
      have : target = out := Except.ok.inj h
      subst this
      rfl
  | ok e =>
      cases hnt : insertion_new_text e with
      | some nt =>
          simp only [replace_placeholder, parse_snippet, hnt] at h
          have : (rpWalkE ph nt target).1 = out := Except.ok.inj h
          rw [← this]
          exact rpWalkE_tag ph nt target
      | none =>
          cases hfr : firesE ph target with
          | true => simp [replace_placeholder, parse_snippet, hnt, hfr] at h
          | false =>
              simp only [replace_placeholder, parse_snippet, hnt, hfr,
                Bool.false_eq_true, if_false] at h
              have : target = out := Except.ok.inj h
              subst this
              rfl

theorem replace_placeholder_ok_clean (target : Elem) (ins : Snippet)
    (ph : Option String) (out : Elem) (hc : cleanE target = true)
    (h : replace_placeholder target ins ph = .ok out) :
    cleanE out = true := by
  cases ins with
  | bad =>
      have : target = out := Except.ok.inj h
      subst this
      exact hc
  | ok e =>
      cases hnt : insertion_new_text e with
      | some nt =>
          simp only [replace_placeholder, parse_snippet, hnt] at h
          have : (rpWalkE ph nt target).1 = out := Except.ok.inj h
          rw [← this]
          exact rpWalkE_clean ph nt target hc
      | none =>
          cases hfr : firesE ph target with
          | true => simp [replace_placeholder, parse_snippet, hnt, hfr] at h
          | false =>
              simp only [replace_placeholder, parse_snippet, hnt, hfr,
                Bool.false_eq_true, if_false] at h
              have : target = out := Except.ok.inj h
              subst this
              exact hc

theorem cleanL_ofL (L : List Elem) :
    cleanL (ElemList.ofL L) = L.all cleanE := by
  induction L with
  | nil => rfl
  | cons e es ih => simp [ElemList.ofL, cleanL, ih]

theorem cleanE_leaf (tg : String) (a : List (String × String))
    (x : Option String) (tl : Option String) (h : (tg == "w:tc") = false) :
    cleanE (Elem.mk tg a x .nil tl) = true := by
  simp [cleanE, localOk, h, cleanL]

theorem all_cleanE_matchChunk (o : Option String) (g : String → Elem)
    (hg : ∀ v, cleanE (g v) = true) :
    (match o with | some v => [g v] | none => ([] : List Elem)).all cleanE
      = true := by
  cases o with
  | none => rfl
  | some v => simp [hg v]

theorem all_cleanE_ifChunk (b : Bool) (e : Elem) (he : cleanE e = true) :
    (if b then [e] else ([] : List Elem)).all cleanE = true := by
  cases b <;> simp [he]

theorem all_cleanE_ifChunkNeg (b : Bool) (e : Elem) (he : cleanE e = true) :
    (if b then ([] : List Elem) else [e]).all cleanE = true := by
  cases b <;> simp [he]

theorem rprKids_all_clean (f : Fmt) : (rprKidsOf f).all cleanE = true := by
  unfold rprKidsOf
  rw [List.all_append, List.all_append, List.all_append, List.all_append,
    List.all_append, List.all_append]
  rw [all_cleanE_ifChunkNeg _ _ (cleanE_leaf "w:rFonts" (fontAttrsOf f) none none
      (by decide))]
  rw [all_cleanE_ifChunk _ _ (cleanE_leaf "w:b" [] none none (by decide))]
  rw [all_cleanE_ifChunk _ _ (cleanE_leaf "w:i" [] none none (by decide))]
  rw [all_cleanE_matchChunk f.underline _
    (fun v => cleanE_leaf "w:u" [("w:val", v)] none none (by decide))]
  rw [all_cleanE_matchChunk f.sz _
    (fun v => cleanE_leaf "w:sz" [("w:val", v)] none none (by decide))]
  rw [all_cleanE_matchChunk f.szCs _
    (fun v => cleanE_leaf "w:szCs" [("w:val", v)] none none (by decide))]
  rw [all_cleanE_matchChunk f.color _
    (fun v => cleanE_leaf "w:color" [("w:val", v)] none none (by decide))]
  rfl

theorem build_run_clean (s : String) (f : Fmt) :
    cleanE (build_run_xml s f) = true := by
  unfold build_run_xml
  simp only [cleanE, localOk]
  rw [if_neg (by decide : ¬ (("w:r" == "w:tc") = true))]
  simp only [Bool.true_and]
  rw [cleanL_ofL, List.all_append]
  have ht : cleanE (Elem.mk "w:t" (tAttrsOf s) (some s) .nil none) = true :=
    cleanE_leaf "w:t" (tAttrsOf s) (some s) none (by decide)
  have hrpr : cleanE (Elem.mk "w:rPr" [] none (ElemList.ofL (rprKidsOf f)) none)
      = true := by
    simp only [cleanE, localOk]
    rw [if_neg (by decide : ¬ (("w:rPr" == "w:tc") = true))]
    simp only [Bool.true_and, cleanL_ofL]
    exact rprKids_all_clean f
  rw [all_cleanE_ifChunk f.truthy _ hrpr]
  simp [ht]

/-- Side conditions under which one answer cannot break the structural
invariants (the amendment the C2 counterexample forces): a
replace_content must insert parseable, structurally clean run- or
paragraph-level content (the plain-text fast path always does); an
append must not insert a bare run and its content, when it parses,
must be clean; replace_placeholder only rewrites text and is always
safe. -/
def SafeAnswer (a : AnswerPayload) : Prop :=
  match a.mode with
  | .replaceContentM =>
      fastPath a = true ∨
      ∃ ne, parse_snippet a.insertion_xml = some ne ∧ cleanE ne = true ∧
        (ne.tag = "w:r" ∨ ne.tag = "w:p")
  | .appendM =>
      fastPath a = false ∧
      (parse_snippet a.insertion_xml = none ∨
        ∃ ne, parse_snippet a.insertion_xml = some ne ∧ cleanE ne = true ∧
          (ne.tag == "w:r") = false)
  | .replacePlaceholderM => True

theorem apply_answer_clean (body : Elem) (a : AnswerPayload) (out : Elem)
    (hc : cleanE body = true) (hs : SafeAnswer a)
    (h : apply_answer body a = .ok out) : cleanE out = true := by
  unfold apply_answer at h
  cases hp : parse_xpath a.xpath with
  | none =>
      simp only [hp] at h
      exact absurd h (by simp)
  | some steps =>
      simp only [hp] at h
      cases hr : resolveSteps body steps with
      | nil =>
          simp only [hr] at h
          exact absurd h (by simp)
      | cons pe t =>
          simp only [hr] at h
          have hget : body.getAt pe.1 = some pe.2 :=
            resolve_sound body steps pe (by rw [hr]; exact List.mem_cons_self _ _)
          have htclean : cleanE pe.2 = true := clean_getAt pe.1 body pe.2 hc hget
          cases hm : a.mode with
          | replaceContentM =>
              simp only [hm] at h
              have hout : body.modifyAt pe.1 (fun t0 => replace_content t0
                  (if fastPath a then
                    Snippet.ok (build_run_xml (a.answer_text.getD "")
                      (extract_formatting_from_element pe.2))
                  else a.insertion_xml)) = out := by
                simpa using h
              subst hout
              have hs2 : fastPath a = true ∨
                  ∃ ne, parse_snippet a.insertion_xml = some ne ∧ cleanE ne = true ∧
                    (ne.tag = "w:r" ∨ ne.tag = "w:p") := by
                simpa [SafeAnswer, hm] using hs
              refine clean_modifyAt pe.1 body pe.2 _ hc hget
                (replace_content_tag pe.2 _) ?_
              by_cases hfp : fastPath a = true
              · rw [if_pos hfp]
                exact replace_content_clean pe.2
                  (build_run_xml (a.answer_text.getD "")
                    (extract_formatting_from_element pe.2))
                  (Snippet.ok _) htclean rfl
                  (build_run_clean _ _) (Or.inl rfl)
              · rw [if_neg hfp]
                rcases hs2 with hfp2 | ⟨ne, hpn, hcn, htn⟩
                · exact absurd hfp2 hfp
                · exact replace_content_clean pe.2 ne a.insertion_xml htclean
                    hpn hcn htn
          | appendM =>
              simp only [hm] at h
              have hout : body.modifyAt pe.1 (fun t0 => append_content t0
                  (if fastPath a then
                    Snippet.ok (build_run_xml (a.answer_text.getD "")
                      (extract_formatting_from_element pe.2))
                  else a.insertion_xml)) = out := by
                simpa using h
              subst hout
              have hs2 : fastPath a = false ∧
                  (parse_snippet a.insertion_xml = none ∨
                    ∃ ne, parse_snippet a.insertion_xml = some ne ∧
                      cleanE ne = true ∧ (ne.tag == "w:r") = false) := by
                simpa [SafeAnswer, hm] using hs
              refine clean_modifyAt pe.1 body pe.2 _ hc hget
                (append_content_tag pe.2 _) ?_
              rw [if_neg (by simp [hs2.1])]
              exact append_content_clean pe.2 a.insertion_xml htclean hs2.2
          | replacePlaceholderM =>
              simp only [hm] at h
              have h2 : (match replace_placeholder pe.2
                  (if fastPath a then
                    Snippet.ok (build_run_xml (a.answer_text.getD "")
                      (extract_formatting_from_element pe.2))
                  else a.insertion_xml) none with
                | .ok t2 => Except.ok (body.modifyAt pe.1 (fun _ => t2))
                | .error e => Except.error e) = Except.ok out := h
              cases hrp : replace_placeholder pe.2
                  (if fastPath a then
                    Snippet.ok (build_run_xml (a.answer_text.getD "")
                      (extract_formatting_from_element pe.2))
                  else a.insertion_xml) none with
              | error e2 =>
                  rw [hrp] at h2
                  have h3 : (Except.error e2 : Except String Elem)
                      = Except.ok out := h2
                  cases h3
              | ok t2 =>
                  rw [hrp] at h2
                  have hout : body.modifyAt pe.1 (fun _ => t2) = out :=
                    Except.ok.inj h2
                  subst hout
                  exact clean_modifyAt pe.1 body pe.2 _ hc hget
                    (replace_placeholder_ok_tag pe.2 _ none t2 hrp)
                    (replace_placeholder_ok_clean pe.2 _ none t2 htclean hrp)

/-- C2 amended.  Starting from a document the structural checker passes,
any sequence of write_answers mutations whose answers satisfy the
SafeAnswer side conditions — every replace_content inserts parseable,
clean run- or paragraph-level content (or uses the plain-text fast
path) and every append inserts clean non-bare-run content — yields a
document on which the checker again reports zero violations of either
kind. -/
theorem C2_structural_preservation (answers : List AnswerPayload) (body : Elem)
    (hclean : check_structural_issues body = [])
    (hsafe : ∀ a ∈ answers, SafeAnswer a) :
    ∀ out, write_answers body answers = .ok out →
      check_structural_issues out = [] := by
  induction answers generalizing body with
  | nil =>
      intro out h
      have hbo : Except.ok body = Except.ok out := h
      have : body = out := Except.ok.inj hbo
      subst this
      exact hclean
  | cons a rest ih =>
      intro out h
      rw [write_answers, List.foldlM_cons] at h
      cases happ : apply_answer body a with
      | error e =>
          rw [happ] at h
          have h3 : (Except.error e : Except String Elem) = Except.ok out := h
          cases h3
      | ok mid =>
          rw [happ] at h
          have h2 : write_answers mid rest = .ok out := h
          have hmid : cleanE mid = true :=
            apply_answer_clean body a mid
              ((check_empty_iff_clean body).mp hclean)
              (hsafe a (List.mem_cons_self a rest)) happ
          exact ih mid ((check_empty_iff_clean mid).mpr hmid)
            (fun b hb => hsafe b (List.mem_cons_of_mem a hb)) out h2

/-- Sample body holding one single-cell table (cell text "x"). -/
def c2Body : Elem :=
  .mk "w:body" [] none
    (.cons (.mk "w:tbl" [] none
      (.cons (.mk "w:tr" [] none (.cons (tcEl "x") .nil) none) .nil) none)
      .nil) none

/-- Answer whose insertion XML does not parse, aimed at the cell. -/
def c2Ans : AnswerPayload :=
  { pair_id := "q1", xpath := "./w:tbl/w:tr/w:tc", insertion_xml := .bad,
    answer_text := none, mode := .replaceContentM }

/-- C2 counterexample.  One replace_content through write_answers whose
insertion XML fails to parse: the call succeeds and returns a document
whose table cell has lost all its paragraphs, and the structural
checker reports a cell-without-paragraph violation — not zero
violations as claimed. -/
theorem C2_counterexample :
    check_structural_issues c2Body = []
    ∧ write_answers c2Body [c2Ans] =
        .ok (.mk "w:body" [] none
          (.cons (.mk "w:tbl" [] none
            (.cons (.mk "w:tr" [] none
              (.cons (.mk "w:tc" [] none .nil none) .nil) none) .nil) none)
            .nil) none)
    ∧ check_structural_issues
        (.mk "w:body" [] none
          (.cons (.mk "w:tbl" [] none
            (.cons (.mk "w:tr" [] none
              (.cons (.mk "w:tc" [] none .nil none) .nil) none) .nil) none)
            .nil) none) = [StructIssue.noParagraph ""] := by
  refine ⟨by decide, by rfl, by decide⟩

/-- A safe answer for the C2 witness: clean run content into the cell. -/
def c2SafeAns : AnswerPayload :=
  { pair_id := "q1", xpath := "./w:tbl/w:tr/w:tc",
    insertion_xml := .ok (rEl "Acme"), answer_text := none,
    mode := .replaceContentM }

/-- Witness for C2 amended: writing clean run content into the sample
cell keeps the checker silent. -/
theorem C2_witness :
    check_structural_issues
      (.mk "w:body" [] none
        (.cons (.mk "w:tbl" [] none
          (.cons (.mk "w:tr" [] none
            (.cons (.mk "w:tc" [] none
              (.cons (.mk "w:p" [] none (.cons (rEl "Acme") .nil) none) .nil)
              none) .nil) none) .nil) none)
          .nil) none) = [] :=
  C2_structural_preservation [c2SafeAns] c2Body (by decide)
    (fun a ha => by
      have : a = c2SafeAns := by simpa using ha
      subst this
      exact Or.inr ⟨rEl "Acme", rfl, by decide, Or.inl rfl⟩)
    _ rfl
